import Mathlib

/-!
# ERC-20 token metrics tracker: HTTP gateway over a fixed contract interface

A shallow embedding of `main.go`.  The three handlers (`GetTokenDetails`,
`GetTotalSupply`, `GetTokenBalance`) and the three helpers
(`getStringFromContract`, `getUint256FromContract`, `callContract`) are
translated from the source.  The functions they call in go-ethereum, `net/http`
and `math/big` are not part of the repository; the fragment of each that the
source reaches is modelled in the first half of the file.

Conventions.
* A Go `string` is a byte sequence; it is represented by a Lean `String` whose
  characters are the bytes (so `len(s)` is `s.length`).
* A Go `error` is observed only through `Error()`; a value of type `error` is
  `Option String`, `none` being `nil`.
* The remote node is a parameter: `Client` gives the answer of
  `client.CallContract` to a call message, depending on everything that
  happened before.
* Every `Pack`, `CallContract` and `UnpackIntoInterface` the source executes is
  appended to a `Trace`, so that "the node is never reached" is a statement
  about the trace.
* The body of a response is the text written to it: the message and a newline
  for `http.Error`, the JSON text for `json.Encoder`, with the escaping of
  `encoding/json` (as of Go 1.22) and its replacement of bytes that are not
  valid UTF-8.
-/

namespace TokenTracker

/-! ## Bytes, addresses, hexadecimal input (go-ethereum `common`, `encoding/hex`) -/

abbrev Byte := Fin 256
abbrev Bytes := List Byte

/-- Big-endian value of a byte string (`new(big.Int).SetBytes(b)`). -/
def bytesToNat (b : Bytes) : Nat :=
  b.foldl (fun acc x => acc * 256 + x.val) 0

/-- Big-endian bytes of `n`, exactly `len` of them (the low `len` bytes). -/
def natToBytes : Nat → Nat → Bytes
  | 0, _ => []
  | len + 1, n => natToBytes len (n / 256) ++ [Fin.ofNat (n % 256)]

/-- The Go expression `b[lo:hi]` for `lo ≤ hi ≤ len(b)`. -/
def slice (b : Bytes) (lo hi : Nat) : Bytes :=
  (b.drop lo).take (hi - lo)

/-- Model of `common.LeftPadBytes`. -/
def LeftPadBytes (s : Bytes) (l : Nat) : Bytes :=
  if l ≤ s.length then s else List.replicate (l - s.length) 0 ++ s

/-- Model of `common.RightPadBytes`. -/
def RightPadBytes (s : Bytes) (l : Nat) : Bytes :=
  if l ≤ s.length then s else s ++ List.replicate (l - s.length) 0

/-- The Go conversion `string(b)`. -/
def bytesToString (b : Bytes) : String :=
  String.mk (b.map (fun x => Char.ofNat x.val))

/-- The Go conversion `[]byte(s)`. -/
def stringToBytes (s : String) : Bytes :=
  s.toList.map (fun c => Fin.ofNat c.toNat)

/-- A `common.Address`: an array of 20 bytes. -/
structure Address where
  bytes : Bytes
  size : bytes.length = 20
deriving DecidableEq

/-- Model of `common.BytesToAddress`: keeps the last 20 bytes of `b`, and pads
a shorter `b` with zero bytes on the left. -/
def BytesToAddress (b : Bytes) : Address :=
  ⟨List.replicate (20 - (b.drop (b.length - 20)).length) 0 ++ b.drop (b.length - 20), by
    simp only [List.length_append, List.length_replicate, List.length_drop]
    omega⟩

/-- The table `reverseHexTable` of `encoding/hex`. -/
def fromHexChar (c : Char) : Option Nat :=
  if '0' ≤ c ∧ c ≤ '9' then some (c.toNat - '0'.toNat)
  else if 'a' ≤ c ∧ c ≤ 'f' then some (c.toNat - 'a'.toNat + 10)
  else if 'A' ≤ c ∧ c ≤ 'F' then some (c.toNat - 'A'.toNat + 10)
  else none

/-- Model of `hex.DecodeString` as `common.Hex2Bytes` uses it: the error is
dropped and the bytes decoded before the first invalid character are kept. -/
def Hex2Bytes : List Char → Bytes
  | p :: q :: rest =>
    match fromHexChar p, fromHexChar q with
    | some a, some b => Fin.ofNat (a * 16 + b) :: Hex2Bytes rest
    | _, _ => []
  | _ => []

/-- Model of `common.has0xPrefix`. -/
def has0x : List Char → Bool
  | c0 :: c1 :: _ => c0 == '0' && (c1 == 'x' || c1 == 'X')
  | _ => false

/-- Model of `common.FromHex`. -/
def FromHex (s : List Char) : Bytes :=
  let s1 := if has0x s then s.drop 2 else s
  let s2 := if s1.length % 2 = 1 then '0' :: s1 else s1
  Hex2Bytes s2

/-- Model of `common.HexToAddress`.  It has no error result: any string is
turned into some address. -/
def HexToAddress (s : String) : Address :=
  BytesToAddress (FromHex s.toList)

/-- Model of `common.IsHexAddress`: what a syntactically valid address is. -/
def IsHexAddress (s : String) : Bool :=
  let s1 := if has0x s.toList then s.toList.drop 2 else s.toList
  s1.length == 40 && s1.all (fun c => (fromHexChar c).isSome)

/-! ## Go values crossing the codec -/

/-- The Go values that are passed to `Pack` or produced by
`UnpackIntoInterface` for the types of `ERC20_ABI`. -/
inductive GoValue
  | address (a : Address)
  | string (s : String)
  | bigInt (p : Option Int)
  | uint8 (n : Nat)
deriving DecidableEq

/-- The Go type name of a value, as `%v` prints `reflect.Type`. -/
def GoValue.typeName : GoValue → String
  | .address _ => "common.Address"
  | .string _ => "string"
  | .bigInt _ => "*big.Int"
  | .uint8 _ => "uint8"

/-- The `reflect.Kind` of a value, as `%v` prints it. -/
def GoValue.kind : GoValue → String
  | .address _ => "array"
  | .string _ => "string"
  | .bigInt _ => "ptr"
  | .uint8 _ => "uint8"

/-- Model of `(*big.Int).String`. -/
def bigIntString : Option Int → String
  | none => "<nil>"
  | some i => toString i

/-! ## The interface description -/

/-- The ABI types that occur in `ERC20_ABI`. -/
inductive AbiType
  | StringTy
  | Uint8Ty
  | Uint256Ty
  | AddressTy
deriving DecidableEq

/-- The `type` string of an ABI type. -/
def AbiType.text : AbiType → String
  | .StringTy => "string"
  | .Uint8Ty => "uint8"
  | .Uint256Ty => "uint256"
  | .AddressTy => "address"

/-- The `reflect.Kind` of the Go type that `Type.GetType` gives for an ABI
type: `string`, `uint8`, `*big.Int`, `common.Address`. -/
def AbiType.kind : AbiType → String
  | .StringTy => "string"
  | .Uint8Ty => "uint8"
  | .Uint256Ty => "ptr"
  | .AddressTy => "array"

/-- One entry of the JSON interface description: `name`, the types of
`inputs` and the types of `outputs`. -/
structure AbiEntry where
  name : String
  inputs : List AbiType
  outputs : List AbiType
deriving DecidableEq

/-- The constant `ERC20_ABI` of `main.go`, entry by entry. -/
def ERC20_ABI : List AbiEntry :=
  [ ⟨"name", [], [.StringTy]⟩,
    ⟨"symbol", [], [.StringTy]⟩,
    ⟨"totalSupply", [], [.Uint256Ty]⟩,
    ⟨"balanceOf", [.AddressTy], [.Uint256Ty]⟩,
    ⟨"decimals", [], [.Uint8Ty]⟩ ]

/-- The signature `name(type,...)` of an entry. -/
def AbiEntry.sig (m : AbiEntry) : String :=
  m.name ++ "(" ++ ",".intercalate (m.inputs.map AbiType.text) ++ ")"

/-- First four bytes of the Keccak-256 hash of a signature, tabulated for the
signatures of `ERC20_ABI`. -/
def keccak4 (sig : String) : Bytes :=
  if sig = "name()" then [0x06, 0xfd, 0xde, 0x03]
  else if sig = "symbol()" then [0x95, 0xd8, 0x9b, 0x41]
  else if sig = "totalSupply()" then [0x18, 0x16, 0x0d, 0xdd]
  else if sig = "balanceOf(address)" then [0x70, 0xa0, 0x82, 0x31]
  else if sig = "decimals()" then [0x31, 0x3c, 0xe5, 0x67]
  else []

/-- An `abi.Method`. -/
structure Method where
  Name : String
  Inputs : List AbiType
  Outputs : List AbiType
  ID : Bytes

/-- An `abi.ABI`: the methods by name; there is no constructor entry and no
event in `ERC20_ABI`. -/
structure ABI where
  Methods : List Method

/-- Model of `abi.JSON` on a parsed description. -/
def abiJSON (entries : List AbiEntry) : ABI :=
  ⟨entries.map (fun e => ⟨e.name, e.inputs, e.outputs, keccak4 e.sig⟩)⟩

/-- The map lookup `abi.Methods[name]`. -/
def ABI.method? (abi : ABI) (name : String) : Option Method :=
  abi.Methods.find? (fun m => m.Name == name)

/-- The global `contractABI`, set by `init`. -/
def contractABI : ABI := abiJSON ERC20_ABI

/-- The global `contractAddr`. -/
def contractAddr : Address :=
  HexToAddress "0x68E1Acf6b9f56267adDf65e1249B6aE321c0560E"

/-! ## The codec (go-ethereum `accounts/abi`) -/

/-- Model of `isDynamicType`. -/
def AbiType.isDynamic : AbiType → Bool
  | .StringTy => true
  | _ => false

/-- Model of `math.U256Bytes`: the 32-byte big-endian form of `i` modulo `2^256`. -/
def U256Bytes (i : Int) : Bytes :=
  natToBytes 32 (i % (2 ^ 256 : Int)).toNat

/-- Model of `packBytesSlice`: the length word, then the bytes padded on the
right to a multiple of 32. -/
def packBytesSlice (b : Bytes) : Bytes :=
  natToBytes 32 b.length ++ RightPadBytes b ((b.length + 31) / 32 * 32)

/-- Model of `packElement` on a value that passed `typeCheck`.  A nil
`*big.Int` makes the Go code panic; the model reports it as an error. -/
def packElement : GoValue → Except String Bytes
  | .address a => .ok (LeftPadBytes a.bytes 32)
  | .bigInt (some i) => .ok (U256Bytes i)
  | .bigInt none => .error "runtime error: invalid memory address or nil pointer dereference"
  | .uint8 n => .ok (natToBytes 32 n)
  | .string s => .ok (packBytesSlice (stringToBytes s))

/-- Model of `Type.pack`: `typeCheck` compares the kind of the value with the
kind the ABI type expects, then `packElement` encodes the value. -/
def AbiType.pack (t : AbiType) (v : GoValue) : Except String Bytes :=
  if t.kind ≠ v.kind then
    .error ("abi: cannot use " ++ v.kind ++ " as type " ++ t.kind ++ " as argument")
  else packElement v

/-- The loop of `Arguments.Pack`: `ret` collects the head, `variableInput` the
tail of dynamic values, `inputOffset` the offset of the next dynamic value. -/
def packLoop : List (AbiType × GoValue) → Nat → Bytes → Bytes → Except String Bytes
  | [], _, ret, variableInput => .ok (ret ++ variableInput)
  | (t, a) :: rest, inputOffset, ret, variableInput =>
    match t.pack a with
    | .error err => .error err
    | .ok packed =>
      if t.isDynamic then
        packLoop rest (inputOffset + packed.length) (ret ++ natToBytes 32 inputOffset)
          (variableInput ++ packed)
      else
        packLoop rest inputOffset (ret ++ packed) variableInput

/-- Model of `Arguments.Pack`. -/
def ArgumentsPack (abiArgs : List AbiType) (args : List GoValue) : Except String Bytes :=
  if args.length ≠ abiArgs.length then
    .error ("argument count mismatch: got " ++ toString args.length ++ " for "
      ++ toString abiArgs.length)
  else
    packLoop (abiArgs.zip args) (32 * abiArgs.length) [] []

/-- Model of `ABI.Pack`.  The empty name selects the constructor, which has no
inputs here. -/
def ABI.Pack (abi : ABI) (name : String) (args : List GoValue) : Except String Bytes :=
  if name = "" then
    ArgumentsPack [] args
  else
    match abi.method? name with
    | none => .error ("method \x27" ++ name ++ "\x27 not found")
    | some method =>
      match ArgumentsPack method.Inputs args with
      | .error err => .error err
      | .ok arguments => .ok (method.ID ++ arguments)

/-- Model of `lengthPrefixPointsTo`: start and length of the dynamic value whose
offset word is at `index`. -/
def lengthPrefixPointsTo (index : Nat) (output : Bytes) : Except String (Nat × Nat) :=
  let bigOffsetEnd := bytesToNat (slice output index (index + 32)) + 32
  if bigOffsetEnd > output.length then
    .error ("abi: cannot marshal in to go slice: offset " ++ toString bigOffsetEnd
      ++ " would go over slice boundary (len=" ++ toString output.length ++ ")")
  else if bigOffsetEnd ≥ 2 ^ 63 then
    .error ("abi offset larger than int64: " ++ toString bigOffsetEnd)
  else
    let lengthBig := bytesToNat (slice output (bigOffsetEnd - 32) bigOffsetEnd)
    let totalSize := bigOffsetEnd + lengthBig
    if totalSize ≥ 2 ^ 63 then
      .error ("abi: length larger than int64: " ++ toString totalSize)
    else if totalSize > output.length then
      .error ("abi: cannot marshal in to go type: length insufficient "
        ++ toString output.length ++ " require " ++ toString totalSize)
    else
      .ok (bigOffsetEnd, lengthBig)

/-- Model of `ReadInteger` for the two unsigned types of `ERC20_ABI`. -/
def ReadInteger (t : AbiType) (b : Bytes) : Except String GoValue :=
  let ret := bytesToNat b
  match t with
  | .Uint8Ty => if ret > 255 then .error "abi: improperly encoded uint8 value" else .ok (.uint8 ret)
  | _ => .ok (.bigInt (some (Int.ofNat ret)))

/-- Model of `toGoType`. -/
def toGoType (index : Nat) (t : AbiType) (output : Bytes) : Except String GoValue :=
  if index + 32 > output.length then
    .error ("abi: cannot marshal in to go type: length insufficient "
      ++ toString output.length ++ " require " ++ toString (index + 32))
  else
    match t with
    | .StringTy =>
      match lengthPrefixPointsTo index output with
      | .error err => .error err
      | .ok (start, length) => .ok (.string (bytesToString (slice output start (start + length))))
    | .AddressTy => .ok (.address (BytesToAddress (slice output index (index + 32))))
    | t => ReadInteger t (slice output index (index + 32))

/-- Model of `Arguments.UnpackValues`, from argument number `index` on. -/
def UnpackValues : List AbiType → Nat → Bytes → Except String (List GoValue)
  | [], _, _ => .ok []
  | t :: rest, index, data =>
    match toGoType (index * 32) t data with
    | .error err => .error err
    | .ok marshalledValue =>
      match UnpackValues rest (index + 1) data with
      | .error err => .error err
      | .ok retval => .ok (marshalledValue :: retval)

/-- Model of `Arguments.Unpack`. -/
def ArgumentsUnpack (arguments : List AbiType) (data : Bytes) : Except String (List GoValue) :=
  if data.length = 0 then
    if arguments.length ≠ 0 then
      .error "abi: attempting to unmarshal an empty string while arguments are expected"
    else .ok []
  else UnpackValues arguments 0 data

/-- Model of `set(dst, src)` for a destination variable of type `string` or
`*big.Int`: the value is stored when its type is the type of the destination. -/
def set (dst src : GoValue) : Except String GoValue :=
  if src.typeName = dst.typeName then .ok src
  else .error ("abi: cannot unmarshal " ++ src.typeName ++ " in to " ++ dst.typeName)

/-- Model of `Arguments.Copy` into a variable of type `string` or `*big.Int`
holding `dst`; the result is what the variable holds afterwards. -/
def ArgumentsCopy (arguments : List AbiType) (dst : GoValue) (values : List GoValue) :
    Except String GoValue :=
  match values with
  | [] =>
    if arguments.length ≠ 0 then
      .error "abi: attempting to copy no values while arguments are expected"
    else .ok dst
  | v :: _ =>
    if arguments.length > 1 then
      .error ("abi:[2] cannot unmarshal tuple in to " ++ dst.typeName)
    else set dst v

/-- Model of `ABI.getArguments`; there are no events, and the `Outputs` of a
method read from a description is never nil.  The dump of `data` that ends the
message of the first error is not reproduced. -/
def ABI.getArguments (abi : ABI) (name : String) (data : Bytes) : Except String (List AbiType) :=
  match abi.method? name with
  | some method =>
    if data.length % 32 ≠ 0 then .error "abi: improperly formatted output"
    else .ok method.Outputs
  | none => .error ("abi: could not locate named method or event: " ++ name)

/-- Model of `ABI.UnpackIntoInterface(&v, name, data)` where the variable `v`
holds `dst` before the call; the result is what `v` holds afterwards. -/
def ABI.UnpackIntoInterface (abi : ABI) (dst : GoValue) (name : String) (data : Bytes) :
    Except String GoValue :=
  match abi.getArguments name data with
  | .error err => .error err
  | .ok args =>
    match ArgumentsUnpack args data with
    | .error err => .error err
    | .ok unpacked => ArgumentsCopy args dst unpacked

/-! ## JSON text (`encoding/json`, `unicode/utf8`) -/

/-- The rune `utf8.RuneError`. -/
def RuneError : Nat := 0xFFFD

/-- The table `first` of `unicode/utf8` for a lead byte from 0x80 on: the size
of the sequence and the range accepted for its second byte; `none` for a byte
that cannot start a sequence. -/
def first (b : Nat) : Option (Nat × Nat × Nat) :=
  if b < 0xC2 then none
  else if b ≤ 0xDF then some (2, 0x80, 0xBF)
  else if b = 0xE0 then some (3, 0xA0, 0xBF)
  else if b ≤ 0xEC then some (3, 0x80, 0xBF)
  else if b = 0xED then some (3, 0x80, 0x9F)
  else if b ≤ 0xEF then some (3, 0x80, 0xBF)
  else if b = 0xF0 then some (4, 0x90, 0xBF)
  else if b ≤ 0xF3 then some (4, 0x80, 0xBF)
  else if b = 0xF4 then some (4, 0x80, 0x8F)
  else none

/-- The byte `s[i]` of a string given as the list of its bytes. -/
def byteAt (s : List Char) (i : Nat) : Nat :=
  match s.get? i with
  | some c => c.toNat
  | none => 0

/-- Model of `utf8.DecodeRuneInString`: the rune at the start of `s` and its
size in bytes; `(RuneError, 1)` when `s` does not start with a valid sequence. -/
def DecodeRune (s : List Char) : Nat × Nat :=
  match s with
  | [] => (RuneError, 0)
  | c0 :: _ =>
    if c0.toNat < 0x80 then (c0.toNat, 1)
    else
      match first c0.toNat with
      | none => (RuneError, 1)
      | some (sz, lo, hi) =>
        if s.length < sz then (RuneError, 1)
        else if byteAt s 1 < lo ∨ hi < byteAt s 1 then (RuneError, 1)
        else if sz ≤ 2 then (c0.toNat % 32 * 64 + byteAt s 1 % 64, 2)
        else if byteAt s 2 < 0x80 ∨ 0xBF < byteAt s 2 then (RuneError, 1)
        else if sz ≤ 3 then
          (c0.toNat % 16 * 4096 + byteAt s 1 % 64 * 64 + byteAt s 2 % 64, 3)
        else if byteAt s 3 < 0x80 ∨ 0xBF < byteAt s 3 then (RuneError, 1)
        else
          (c0.toNat % 8 * 262144 + byteAt s 1 % 64 * 4096 + byteAt s 2 % 64 * 64
            + byteAt s 3 % 64, 4)

/-- The table `htmlSafeSet` of `encoding/json`: the ASCII bytes written as they
are. -/
def htmlSafe (b : Nat) : Bool :=
  decide (0x20 ≤ b ∧ b < 0x80 ∧ b ≠ 0x22 ∧ b ≠ 0x5C ∧ b ≠ 0x3C ∧ b ≠ 0x3E ∧ b ≠ 0x26)

/-- The escape `appendString` writes for an ASCII byte outside `htmlSafeSet`. -/
def escapeByte (c : Char) : List Char :=
  if c.toNat = 0x5C ∨ c.toNat = 0x22 then ['\\', c]
  else if c.toNat = 0x08 then ['\\', 'b']
  else if c.toNat = 0x0C then ['\\', 'f']
  else if c.toNat = 0x0A then ['\\', 'n']
  else if c.toNat = 0x0D then ['\\', 'r']
  else if c.toNat = 0x09 then ['\\', 't']
  else ['\\', 'u', '0', '0', Nat.digitChar (c.toNat / 16), Nat.digitChar (c.toNat % 16)]

/-- The loop of `appendString` (with `escapeHTML` set, as `json.Encoder` has
it) on the bytes from index `i` on; every round consumes at least one byte, so
`fuel` equal to the number of bytes is enough. -/
def appendStringLoop : Nat → List Char → List Char
  | 0, _ => []
  | _, [] => []
  | fuel + 1, c :: rest =>
    if c.toNat < 0x80 then
      (if htmlSafe c.toNat then [c] else escapeByte c) ++ appendStringLoop fuel rest
    else
      let d := DecodeRune ((c :: rest).take 4)
      if d.1 = RuneError ∧ d.2 = 1 then
        ['\\', 'u', 'f', 'f', 'f', 'd'] ++ appendStringLoop fuel rest
      else if d.1 = 0x2028 ∨ d.1 = 0x2029 then
        ['\\', 'u', '2', '0', '2', Nat.digitChar (d.1 % 16)]
          ++ appendStringLoop fuel (rest.drop (d.2 - 1))
      else
        (c :: rest).take d.2 ++ appendStringLoop fuel (rest.drop (d.2 - 1))

/-- Model of `appendString`: the JSON string literal written for a Go string. -/
def appendString (src : List Char) : List Char :=
  '"' :: (appendStringLoop src.length src ++ ['"'])

/-- The JSON string literal `json.Encoder` writes for a Go string. -/
def jsonString (s : String) : String :=
  String.mk (appendString s.toList)

/-- Comparison of two Go strings, byte by byte. -/
def keyLess : List Char → List Char → Bool
  | [], [] => false
  | [], _ :: _ => true
  | _ :: _, [] => false
  | a :: as, b :: bs =>
    if a.toNat < b.toNat then true
    else if b.toNat < a.toNat then false
    else keyLess as bs

/-- Insertion of a map entry before the first entry with a larger key. -/
def insertEntry (kv : String × String) : List (String × String) → List (String × String)
  | [] => [kv]
  | e :: rest =>
    if keyLess kv.1.toList e.1.toList then kv :: e :: rest else e :: insertEntry kv rest

/-- The entries of a map in the order of their keys, as `json` writes them. -/
def sortEntries : List (String × String) → List (String × String)
  | [] => []
  | kv :: rest => insertEntry kv (sortEntries rest)

/-- The members of a JSON object, separated by commas. -/
def encodeEntries : List (String × String) → List Char
  | [] => []
  | [kv] => appendString kv.1.toList ++ ':' :: appendString kv.2.toList
  | kv :: rest =>
    appendString kv.1.toList ++ ':' :: appendString kv.2.toList ++ ',' :: encodeEntries rest

/-- Model of `json.NewEncoder(w).Encode(m)` for a `map[string]string` given by
its entries: the object with the keys in sorted order, then a newline. -/
def jsonEncode (m : List (String × String)) : String :=
  String.mk ('\x7b' :: (encodeEntries (sortEntries m) ++ ['\x7d', '\n']))

/-- Model of `utf8.ValidString`: no round of decoding reports an error. -/
def validLoop : Nat → List Char → Bool
  | 0, _ => true
  | _, [] => true
  | fuel + 1, c :: rest =>
    if c.toNat < 0x80 then validLoop fuel rest
    else
      let d := DecodeRune ((c :: rest).take 4)
      if d.1 = RuneError ∧ d.2 = 1 then false
      else validLoop fuel (rest.drop (d.2 - 1))

/-- Whether a Go string is valid UTF-8. -/
def ValidString (s : String) : Bool := validLoop s.length s.toList

/-! ### Reading a JSON string literal -/

/-- Value of a hexadecimal digit. -/
def hexVal (c : Char) : Option Nat :=
  if '0' ≤ c ∧ c ≤ '9' then some (c.toNat - '0'.toNat)
  else if 'a' ≤ c ∧ c ≤ 'f' then some (c.toNat - 'a'.toNat + 10)
  else if 'A' ≤ c ∧ c ≤ 'F' then some (c.toNat - 'A'.toNat + 10)
  else none

/-- The number written by four hexadecimal digits. -/
def getu4 (h1 h2 h3 h4 : Char) : Option Nat :=
  match hexVal h1, hexVal h2, hexVal h3, hexVal h4 with
  | some a, some b, some c, some d => some (a * 4096 + b * 256 + c * 16 + d)
  | _, _, _, _ => none

/-- The UTF-8 bytes of a code point (`utf8.EncodeRune`). -/
def EncodeRune (r : Nat) : List Char :=
  if r < 0x80 then [Char.ofNat r]
  else if r < 0x800 then [Char.ofNat (0xC0 + r / 64), Char.ofNat (0x80 + r % 64)]
  else if r < 0x10000 then
    [Char.ofNat (0xE0 + r / 4096), Char.ofNat (0x80 + r / 64 % 64), Char.ofNat (0x80 + r % 64)]
  else
    [Char.ofNat (0xF0 + r / 262144), Char.ofNat (0x80 + r / 4096 % 64),
     Char.ofNat (0x80 + r / 64 % 64), Char.ofNat (0x80 + r % 64)]

/-- The string a JSON string body (the text between the quotes) denotes, as
`encoding/json` reads it: escapes are replaced by what they stand for, valid
UTF-8 sequences and ASCII bytes are kept, a byte that is not part of a valid
sequence and a surrogate escape that is not part of a pair stand for U+FFFD;
`none` when the text is not the body of a string literal.  Every round consumes
at least one byte, so `fuel` equal to the number of bytes is enough. -/
def unquoteLoop : Nat → List Char → Option (List Char)
  | _, [] => some []
  | 0, _ :: _ => none
  | fuel + 1, c :: rest =>
    if c = '"' ∨ c.toNat < 0x20 then none
    else if c ≠ '\\' then
      if c.toNat < 0x80 then (unquoteLoop fuel rest).map (fun t => c :: t)
      else
        let d := DecodeRune ((c :: rest).take 4)
        if d.1 = RuneError ∧ d.2 = 1 then
          (unquoteLoop fuel rest).map (fun t => EncodeRune RuneError ++ t)
        else
          (unquoteLoop fuel (rest.drop (d.2 - 1))).map (fun t => (c :: rest).take d.2 ++ t)
    else
      match rest with
      | [] => none
      | e :: rest1 =>
        if e = 'u' then
          match rest1 with
          | h1 :: h2 :: h3 :: h4 :: rest2 =>
            match getu4 h1 h2 h3 h4 with
            | none => none
            | some r =>
              if 0xD800 ≤ r ∧ r < 0xE000 then
                match rest2 with
                | '\\' :: 'u' :: l1 :: l2 :: l3 :: l4 :: rest3 =>
                  match getu4 l1 l2 l3 l4 with
                  | some r1 =>
                    if r < 0xDC00 ∧ 0xDC00 ≤ r1 ∧ r1 < 0xE000 then
                      (unquoteLoop fuel rest3).map (fun t =>
                        EncodeRune ((r - 0xD800) * 1024 + (r1 - 0xDC00) + 0x10000) ++ t)
                    else (unquoteLoop fuel rest2).map (fun t => EncodeRune RuneError ++ t)
                  | none => (unquoteLoop fuel rest2).map (fun t => EncodeRune RuneError ++ t)
                | _ => (unquoteLoop fuel rest2).map (fun t => EncodeRune RuneError ++ t)
              else (unquoteLoop fuel rest2).map (fun t => EncodeRune r ++ t)
          | _ => none
        else
          let r : Option Char :=
            if e = '"' ∨ e = '\\' ∨ e = '/' then some e
            else if e = 'b' then some (Char.ofNat 0x08)
            else if e = 'f' then some (Char.ofNat 0x0C)
            else if e = 'n' then some (Char.ofNat 0x0A)
            else if e = 'r' then some (Char.ofNat 0x0D)
            else if e = 't' then some (Char.ofNat 0x09)
            else none
          match r with
          | none => none
          | some x => (unquoteLoop fuel rest1).map (fun t => x :: t)

/-- The string a JSON string literal denotes, `none` when the text is not a
string literal. -/
def jsonValue (lit : String) : Option String :=
  match lit.toList with
  | '"' :: body =>
    if body.getLast? = some '"' then
      (unquoteLoop body.length body.dropLast).map String.mk
    else none
  | _ => none

/-! ## HTTP (`net/http`, `encoding/json`) -/

/-- An incoming request: the query parameters in the order they appear. -/
structure Request where
  query : List (String × String)

/-- Model of `r.URL.Query().Get(key)`: the first value of `key`, or the empty
string when there is none. -/
def Request.Get (r : Request) (key : String) : String :=
  match r.query.find? (fun kv => kv.1 == key) with
  | some kv => kv.2
  | none => ""

/-- The state of the `http.ResponseWriter` when the handler returns: the
status, the `Content-Type` header and the bytes written to the body. -/
structure Response where
  status : Nat
  contentType : String
  body : String
deriving DecidableEq

def StatusOK : Nat := 200
def StatusBadRequest : Nat := 400
def StatusInternalServerError : Nat := 500

/-- Model of `http.Error`: the message and a newline, as plain text. -/
def httpError (msg : String) (code : Nat) : Response :=
  ⟨code, "text/plain; charset=utf-8", msg ++ "\n"⟩

/-- The lines `w.Header().Set("Content-Type", "application/json")` and
`json.NewEncoder(w).Encode(response)`; the first write sets status 200. -/
def writeJSON (response : List (String × String)) : Response :=
  ⟨StatusOK, "application/json", jsonEncode response⟩

/-! ## The node and the trace -/

/-- An `ethereum.CallMsg` with the two fields the source sets. -/
structure CallMsg where
  To : Address
  Data : Bytes
deriving DecidableEq

/-- The codec and node operations a run performs, in order. -/
inductive Event
  | Pack (functionName : String) (params : List GoValue)
  | CallContract (msg : CallMsg)
  | UnpackIntoInterface (functionName : String) (data : Bytes)
deriving DecidableEq

abbrev Trace := List Event

/-- The global `client`: the answer of `client.CallContract` to `msg`, given
the trace so far; `.error` carries the message of the returned error. -/
abbrev Client := Trace → CallMsg → Except String Bytes

/-- A Go `error`: `none` is `nil`, `some msg` an error whose `Error()` is `msg`. -/
abbrev error := Option String

/-- Number of node calls in a trace. -/
def nodeCalls (tr : Trace) : Nat :=
  tr.countP (fun e => match e with | .CallContract _ => true | _ => false)

/-! ## `main.go` -/

/-- The function `callContract`. -/
def callContract (client : Client) (functionName : String) (params : List GoValue)
    (tr : Trace) : (Bytes × error) × Trace :=
  let tr1 := tr ++ [.Pack functionName params]
  match contractABI.Pack functionName params with
  | .error err => (([], some err), tr1)
  | .ok data =>
    let msg : CallMsg := ⟨contractAddr, data⟩
    let tr2 := tr1 ++ [.CallContract msg]
    match client tr1 msg with
    | .error err => (([], some err), tr2)
    | .ok result => ((result, none), tr2)

/-- The function `getStringFromContract`.  The variable `result` has type
`string`: the last case, a value of another type left in it, cannot occur. -/
def getStringFromContract (client : Client) (functionName : String) (tr : Trace) :
    (String × error) × Trace :=
  match callContract client functionName [] tr with
  | ((_, some err), tr1) => (("", some err), tr1)
  | ((data, none), tr1) =>
    let tr2 := tr1 ++ [.UnpackIntoInterface functionName data]
    match contractABI.UnpackIntoInterface (.string "") functionName data with
    | .error err => (("", some err), tr2)
    | .ok (.string result) => ((result, none), tr2)
    | .ok _ => (("", none), tr2)

/-- The function `getUint256FromContract`.  The variable `result` has type
`*big.Int`: the last case, a value of another type left in it, cannot occur. -/
def getUint256FromContract (client : Client) (functionName : String) (params : List GoValue)
    (tr : Trace) : (Option Int × error) × Trace :=
  match callContract client functionName params tr with
  | ((_, some err), tr1) => ((none, some err), tr1)
  | ((data, none), tr1) =>
    let tr2 := tr1 ++ [.UnpackIntoInterface functionName data]
    match contractABI.UnpackIntoInterface (.bigInt none) functionName data with
    | .error err => ((none, some err), tr2)
    | .ok (.bigInt result) => ((result, none), tr2)
    | .ok _ => ((none, none), tr2)

/-- The handler `GetTokenDetails`. -/
def GetTokenDetails (client : Client) (_r : Request) (tr : Trace) : Response × Trace :=
  match getStringFromContract client "name" tr with
  | ((_, some err), tr1) =>
    (httpError ("Error fetching token name: " ++ err) StatusInternalServerError, tr1)
  | ((tokenName, none), tr1) =>
    match getStringFromContract client "symbol" tr1 with
    | ((_, some err), tr2) =>
      (httpError ("Error fetching token symbol: " ++ err) StatusInternalServerError, tr2)
    | ((tokenSymbol, none), tr2) =>
      (writeJSON [("name", tokenName), ("symbol", tokenSymbol)], tr2)

/-- The handler `GetTotalSupply`. -/
def GetTotalSupply (client : Client) (_r : Request) (tr : Trace) : Response × Trace :=
  match getUint256FromContract client "totalSupply" [] tr with
  | ((_, some err), tr1) =>
    (httpError ("Error fetching total supply: " ++ err) StatusInternalServerError, tr1)
  | ((totalSupply, none), tr1) =>
    let totalSupplyStr := bigIntString totalSupply
    (writeJSON [("total_supply", totalSupplyStr)], tr1)

/-- The handler `GetTokenBalance`. -/
def GetTokenBalance (client : Client) (r : Request) (tr : Trace) : Response × Trace :=
  let address := r.Get "address"
  if address = "" then
    (httpError "Missing address parameter" StatusBadRequest, tr)
  else
    let addressHex := HexToAddress address
    match getUint256FromContract client "balanceOf" [.address addressHex] tr with
    | ((_, some err), tr1) =>
      (httpError ("Error fetching token balance: " ++ err) StatusInternalServerError, tr1)
    | ((balance, none), tr1) =>
      let balanceStr := bigIntString balance
      (writeJSON [("balance", balanceStr)], tr1)

/-! ## Nodes and answers used in the examples -/

/-- The ABI encoding of a single `string` return value: the offset word 32, the
length word, the bytes padded to a multiple of 32. -/
def encodeString (s : String) : Bytes :=
  natToBytes 32 32 ++ packBytesSlice (stringToBytes s)

/-- The length word of the string that an answer encodes: the word found at the
offset given by the first word. -/
def announcedLength (data : Bytes) : Nat :=
  bytesToNat (slice data (bytesToNat (slice data 0 32)) (bytesToNat (slice data 0 32) + 32))

/-- The string that an answer encodes: the bytes that follow the length word,
as many as it announces. -/
def decodedString (data : Bytes) : String :=
  bytesToString (slice data (bytesToNat (slice data 0 32) + 32)
    (bytesToNat (slice data 0 32) + 32 + announcedLength data))

/-- A stub node: name "Token", symbol "TOK", total supply `2^200`, balance 7
for every address. -/
def stubNode : Client := fun _ msg =>
  if msg.Data = [0x06, 0xfd, 0xde, 0x03] then .ok (encodeString "Token")
  else if msg.Data = [0x95, 0xd8, 0x9b, 0x41] then .ok (encodeString "TOK")
  else if msg.Data = [0x18, 0x16, 0x0d, 0xdd] then .ok (natToBytes 32 (2 ^ 200))
  else .ok (natToBytes 32 7)

/-- A node whose contract has the empty string as name and as symbol. -/
def emptyStringNode : Client := fun _ _ => .ok (encodeString "")

/-- A node that cannot be reached. -/
def downNode : Client := fun _ _ => .error "connection refused"

/-- A node that answers the `name` call and reverts on every other call. -/
def symbolRevertNode : Client := fun _ msg =>
  if msg.Data = [0x06, 0xfd, 0xde, 0x03] then .ok (encodeString "Token")
  else .error "execution reverted"

/-- The trace of the `name` sub-call against `stubNode`. -/
def stubNameTrace : Trace :=
  [.Pack "name" [], .CallContract ⟨contractAddr, [0x06, 0xfd, 0xde, 0x03]⟩,
   .UnpackIntoInterface "name" (encodeString "Token")]

/-- The trace of `GetTokenDetails` against `stubNode`. -/
def stubDetailsTrace : Trace :=
  stubNameTrace ++
  [.Pack "symbol" [], .CallContract ⟨contractAddr, [0x95, 0xd8, 0x9b, 0x41]⟩,
   .UnpackIntoInterface "symbol" (encodeString "TOK")]

/-- A node whose contract has total supply and balances zero. -/
def zeroNode : Client := fun _ _ => .ok (natToBytes 32 0)

/-- The two bytes ff fe, which are not valid UTF-8. -/
def invalidName : String := String.mk [Char.ofNat 0xFF, Char.ofNat 0xFE]

/-- A node whose contract has the bytes ff fe as name and "TOK" as symbol. -/
def invalidNameNode : Client := fun _ msg =>
  if msg.Data = [0x06, 0xfd, 0xde, 0x03] then .ok (encodeString invalidName)
  else .ok (encodeString "TOK")

/-- The function is declared in the interface description, the arguments are
as many as its inputs and of their kinds, and encoding the call succeeds. -/
def declaredCall (functionName : String) (params : List GoValue) : Prop :=
  ∃ method data, contractABI.method? functionName = some method ∧
    method.Inputs.map AbiType.kind = params.map GoValue.kind ∧
    contractABI.Pack functionName params = .ok data

/-- A request without query parameters. -/
def bareRequest : Request := ⟨[]⟩

/-- A request with the given `address` parameter. -/
def balanceRequest (address : String) : Request := ⟨[("address", address)]⟩

/-! ## Lemmas: JSON string literals -/

theorem first_spec (b sz lo hi : Nat) (h : first b = some (sz, lo, hi)) :
    (sz = 2 ∧ 0xC2 ≤ b ∧ b ≤ 0xDF ∧ lo = 0x80 ∧ hi = 0xBF) ∨
    (sz = 3 ∧ 0xE0 ≤ b ∧ b ≤ 0xEF ∧ 0x80 ≤ lo ∧ hi ≤ 0xBF) ∨
    (sz = 4 ∧ 0xF0 ≤ b ∧ b ≤ 0xF4 ∧ 0x80 ≤ lo ∧ hi ≤ 0xBF ∧ (b = 0xF0 → lo = 0x90)) := by
  unfold first at h
  repeat' split at h
  all_goals first
    | (cases h; omega)
    | cases h

/-- What a successful round of decoding at a byte from 0x80 on has read: a
sequence of two, three or four bytes, all from 0x80 on. -/
theorem DecodeRune_valid (c0 : Char) (rest : List Char) (h0 : 0x80 ≤ c0.toNat)
    (h : ¬ ((DecodeRune ((c0 :: rest).take 4)).1 = RuneError ∧
      (DecodeRune ((c0 :: rest).take 4)).2 = 1)) :
    (∃ c1 t, rest = c1 :: t ∧
      (∀ X, DecodeRune ((c0 :: c1 :: X).take 4) = (c0.toNat % 32 * 64 + c1.toNat % 64, 2)) ∧
      0xC2 ≤ c0.toNat ∧ c0.toNat ≤ 0xDF ∧ 0x80 ≤ c1.toNat ∧ c1.toNat ≤ 0xBF) ∨
    (∃ c1 c2 t, rest = c1 :: c2 :: t ∧
      (∀ X, DecodeRune ((c0 :: c1 :: c2 :: X).take 4)
        = (c0.toNat % 16 * 4096 + c1.toNat % 64 * 64 + c2.toNat % 64, 3)) ∧
      0xE0 ≤ c0.toNat ∧ c0.toNat ≤ 0xEF ∧ 0x80 ≤ c1.toNat ∧ c1.toNat ≤ 0xBF ∧
      0x80 ≤ c2.toNat ∧ c2.toNat ≤ 0xBF) ∨
    (∃ c1 c2 c3 t, rest = c1 :: c2 :: c3 :: t ∧
      (∀ X, DecodeRune ((c0 :: c1 :: c2 :: c3 :: X).take 4)
        = (c0.toNat % 8 * 262144 + c1.toNat % 64 * 4096 + c2.toNat % 64 * 64
            + c3.toNat % 64, 4)) ∧
      0xF0 ≤ c0.toNat ∧ c0.toNat ≤ 0xF4 ∧ 0x80 ≤ c1.toNat ∧ c1.toNat ≤ 0xBF ∧
      0x80 ≤ c2.toNat ∧ c2.toNat ≤ 0xBF ∧ 0x80 ≤ c3.toNat ∧ c3.toNat ≤ 0xBF ∧
      (c0.toNat = 0xF0 → 0x90 ≤ c1.toNat)) := by
  have hlt : ¬ c0.toNat < 0x80 := by omega
  cases hf : first c0.toNat with
  | none =>
    exfalso
    apply h
    cases rest <;> simp [DecodeRune, hlt, hf]
  | some p =>
    obtain ⟨sz, lo, hi⟩ := p
    rcases first_spec _ _ _ _ hf with ⟨hsz, hb1, hb2, hlo, hhi⟩ | ⟨hsz, hb1, hb2, hlo, hhi⟩ |
      ⟨hsz, hb1, hb2, hlo, hhi, hF0⟩
    · subst hsz
      match rest, h with
      | [], h => exact absurd (by simp [DecodeRune, hlt, hf]) h
      | c1 :: t, h =>
        left
        by_cases hr : c1.toNat < lo ∨ hi < c1.toNat
        · exact absurd (by cases t <;> simp [DecodeRune, hlt, hf, byteAt, hr]) h
        · refine ⟨c1, t, rfl, ?_, hb1, hb2, by omega, by omega⟩
          intro X
          rcases X with _ | ⟨c2, _ | ⟨c3, X⟩⟩ <;> simp [DecodeRune, hlt, hf, byteAt, hr]
    · subst hsz
      match rest, h with
      | [], h => exact absurd (by simp [DecodeRune, hlt, hf]) h
      | [c1], h => exact absurd (by simp [DecodeRune, hlt, hf]) h
      | c1 :: c2 :: t, h =>
        right; left
        by_cases hr : c1.toNat < lo ∨ hi < c1.toNat
        · exact absurd (by cases t <;> simp [DecodeRune, hlt, hf, byteAt, hr]) h
        · by_cases hr2 : c2.toNat < 0x80 ∨ 0xBF < c2.toNat
          · exact absurd (by cases t <;> simp [DecodeRune, hlt, hf, byteAt, hr, hr2]) h
          · refine ⟨c1, c2, t, rfl, ?_, hb1, hb2, by omega, by omega, by omega, by omega⟩
            intro X
            rcases X with _ | ⟨c3, X⟩ <;> simp [DecodeRune, hlt, hf, byteAt, hr, hr2]
    · subst hsz
      match rest, h with
      | [], h => exact absurd (by simp [DecodeRune, hlt, hf]) h
      | [c1], h => exact absurd (by simp [DecodeRune, hlt, hf]) h
      | [c1, c2], h => exact absurd (by simp [DecodeRune, hlt, hf]) h
      | c1 :: c2 :: c3 :: t, h =>
        right; right
        by_cases hr : c1.toNat < lo ∨ hi < c1.toNat
        · exact absurd (by simp [DecodeRune, hlt, hf, byteAt, hr]) h
        · by_cases hr2 : c2.toNat < 0x80 ∨ 0xBF < c2.toNat
          · exact absurd (by simp [DecodeRune, hlt, hf, byteAt, hr, hr2]) h
          · by_cases hr3 : c3.toNat < 0x80 ∨ 0xBF < c3.toNat
            · exact absurd (by simp [DecodeRune, hlt, hf, byteAt, hr, hr2, hr3]) h
            · refine ⟨c1, c2, c3, t, rfl, ?_, hb1, hb2, by omega, by omega, by omega,
                by omega, by omega, by omega, ?_⟩
              · intro X
                simp [DecodeRune, hlt, hf, byteAt, hr, hr2, hr3]
              · intro hF; have := hF0 hF; omega


theorem hexVal_digitChar (d : Nat) (h : d < 16) : hexVal (Nat.digitChar d) = some d := by
  interval_cases d <;> rfl

theorem toNat_ne_of_ge (c : Char) (k : Char) (h : k.toNat < c.toNat) : c ≠ k := by
  intro hc
  rw [hc] at h
  exact Nat.lt_irrefl _ h

theorem toNat_ne_of_ne (c : Char) (k : Char) (h : c.toNat ≠ k.toNat) : c ≠ k := by
  intro hc
  exact h (by rw [hc])

/-- An ASCII byte that is not a quote, a backslash or a control byte is kept. -/
theorem unquote_raw (F : Nat) (c : Char) (t : List Char) (h1 : c.toNat ≠ 0x22)
    (h2 : 0x20 ≤ c.toNat) (h3 : c.toNat ≠ 0x5C) (h4 : c.toNat < 0x80) :
    unquoteLoop (F + 1) (c :: t) = (unquoteLoop F t).map (fun r => c :: r) := by
  have e1 : c ≠ '"' := toNat_ne_of_ne c '"' h1
  have e3 : c ≠ '\\' := toNat_ne_of_ne c '\\' h3
  have e2 : ¬ c.toNat < 0x20 := by omega
  simp [unquoteLoop, e1, e2, e3, h4]

/-- A valid UTF-8 sequence is kept. -/
theorem unquote_rune (F : Nat) (c : Char) (rest : List Char) (r k : Nat)
    (h0 : 0x80 ≤ c.toNat) (hd : DecodeRune ((c :: rest).take 4) = (r, k)) (hk : k ≠ 1) :
    unquoteLoop (F + 1) (c :: rest)
      = (unquoteLoop F (rest.drop (k - 1))).map (fun t => (c :: rest).take k ++ t) := by
  have e1 : c ≠ '"' := toNat_ne_of_ne c '"' (by
    have : ('"' : Char).toNat = 0x22 := rfl
    omega)
  have e3 : c ≠ '\\' := toNat_ne_of_ne c '\\' (by
    have : ('\\' : Char).toNat = 0x5C := rfl
    omega)
  have e2 : ¬ c.toNat < 0x20 := by omega
  have e4 : ¬ c.toNat < 0x80 := by omega
  have e5 : ¬ ((DecodeRune ((c :: rest).take 4)).1 = RuneError ∧
      (DecodeRune ((c :: rest).take 4)).2 = 1) := by
    rw [hd]; intro h; exact hk h.2
  simp only [unquoteLoop, e1, e2, e3, e4, or_self, if_false, ne_eq, not_false_eq_true,
    if_true]
  rw [if_neg e5, hd]

/-- An escape of four hexadecimal digits outside the surrogate range stands for
the UTF-8 bytes of the code point. -/
theorem unquote_u (F : Nat) (h1 h2 h3 h4 : Char) (t : List Char) (r : Nat)
    (hg : getu4 h1 h2 h3 h4 = some r) (hs : ¬ (0xD800 ≤ r ∧ r < 0xE000)) :
    unquoteLoop (F + 1) ('\\' :: 'u' :: h1 :: h2 :: h3 :: h4 :: t)
      = (unquoteLoop F t).map (fun x => EncodeRune r ++ x) := by
  simp [unquoteLoop, hg, hs]

/-- The escape written for an ASCII byte outside `htmlSafeSet` stands for that
byte. -/
theorem unquote_escapeByte (F : Nat) (c : Char) (t : List Char) (h : c.toNat < 0x80) :
    unquoteLoop (F + 1) (escapeByte c ++ t) = (unquoteLoop F t).map (fun r => c :: r) := by
  have hq : ('\\' : Char) ≠ '"' := by decide
  have hb : ¬ ('\\' : Char).toNat < 0x20 := by decide
  unfold escapeByte
  by_cases h1 : c.toNat = 0x5C ∨ c.toNat = 0x22
  · have hc : c = '\\' ∨ c = '"' := by
      rcases h1 with h1 | h1
      · left; rw [← Char.ofNat_toNat c, h1]
      · right; rw [← Char.ofNat_toNat c, h1]
    rcases hc with hc | hc <;> subst hc <;> simp [unquoteLoop]
  · simp only [h1, if_false]
    by_cases h2 : c.toNat = 0x08
    · have hc : c = Char.ofNat 0x08 := by rw [← Char.ofNat_toNat c, h2]
      subst hc; simp [unquoteLoop]
    · simp only [h2, if_false]
      by_cases h3 : c.toNat = 0x0C
      · have hc : c = Char.ofNat 0x0C := by rw [← Char.ofNat_toNat c, h3]
        subst hc; simp [unquoteLoop]
      · simp only [h3, if_false]
        by_cases h4 : c.toNat = 0x0A
        · have hc : c = Char.ofNat 0x0A := by rw [← Char.ofNat_toNat c, h4]
          subst hc; simp [unquoteLoop]
        · simp only [h4, if_false]
          by_cases h5 : c.toNat = 0x0D
          · have hc : c = Char.ofNat 0x0D := by rw [← Char.ofNat_toNat c, h5]
            subst hc; simp [unquoteLoop]
          · simp only [h5, if_false]
            by_cases h6 : c.toNat = 0x09
            · have hc : c = Char.ofNat 0x09 := by rw [← Char.ofNat_toNat c, h6]
              subst hc; simp [unquoteLoop]
            · simp only [h6, if_false]
              have hd1 := hexVal_digitChar (c.toNat / 16) (by omega)
              have hd2 := hexVal_digitChar (c.toNat % 16) (by omega)
              have h0 : hexVal '0' = some 0 := rfl
              have hg : getu4 '0' '0' (Nat.digitChar (c.toNat / 16))
                  (Nat.digitChar (c.toNat % 16)) = some c.toNat := by
                simp only [getu4, h0, hd1, hd2, Option.some.injEq]
                omega
              have hs : ¬ (0xD800 ≤ c.toNat ∧ c.toNat < 0xE000) := by omega
              have := unquote_u F _ _ _ _ t c.toNat hg hs
              simp only [List.cons_append, List.nil_append]
              rw [this]
              simp [EncodeRune, h]


theorem escapeByte_length (c : Char) : 1 ≤ (escapeByte c).length := by
  unfold escapeByte
  repeat' split
  all_goals simp

theorem htmlSafe_spec (b : Nat) (h : htmlSafe b = true) :
    0x20 ≤ b ∧ b < 0x80 ∧ b ≠ 0x22 ∧ b ≠ 0x5C := by
  simp only [htmlSafe, decide_eq_true_eq] at h
  omega

theorem EncodeRune_2028 :
    EncodeRune 0x2028 = [Char.ofNat 0xE2, Char.ofNat 0x80, Char.ofNat 0xA8] := by decide

theorem EncodeRune_2029 :
    EncodeRune 0x2029 = [Char.ofNat 0xE2, Char.ofNat 0x80, Char.ofNat 0xA9] := by decide

/-- Reading what `appendString` writes for a valid UTF-8 string gives the string
back. -/
theorem unquote_appendStringLoop (fuel : Nat) : ∀ src : List Char, src.length ≤ fuel →
    validLoop fuel src = true → ∀ F, (appendStringLoop fuel src).length ≤ F →
    unquoteLoop F (appendStringLoop fuel src) = some src := by
  induction fuel with
  | zero =>
    intro src hlen _ F _
    have : src = [] := List.length_eq_zero.mp (by omega)
    subst this
    simp [appendStringLoop, unquoteLoop]
  | succ fuel ih =>
    intro src hlen hvalid F hF
    match src, hlen, hvalid, hF with
    | [], _, _, _ => simp [appendStringLoop, unquoteLoop]
    | c :: rest, hlen, hvalid, hF =>
      have hrest : rest.length ≤ fuel := by simp at hlen; omega
      by_cases hc : c.toNat < 0x80
      · have hv : validLoop fuel rest = true := by
          simpa [validLoop, hc] using hvalid
        by_cases hs : htmlSafe c.toNat = true
        · have henc : appendStringLoop (fuel + 1) (c :: rest)
              = c :: appendStringLoop fuel rest := by
            simp [appendStringLoop, hc, hs]
          rw [henc] at hF ⊢
          simp only [List.length_cons] at hF
          obtain ⟨F', rfl⟩ : ∃ F', F = F' + 1 := ⟨F - 1, by omega⟩
          obtain ⟨s1, _, s3, s4⟩ := htmlSafe_spec _ hs
          rw [unquote_raw F' c _ s3 s1 s4 hc, ih rest hrest hv F' (by omega)]
          rfl
        · have henc : appendStringLoop (fuel + 1) (c :: rest)
              = escapeByte c ++ appendStringLoop fuel rest := by
            simp [appendStringLoop, hc, hs]
          rw [henc] at hF ⊢
          simp only [List.length_append] at hF
          have := escapeByte_length c
          obtain ⟨F', rfl⟩ : ∃ F', F = F' + 1 := ⟨F - 1, by omega⟩
          rw [unquote_escapeByte F' c _ hc, ih rest hrest hv F' (by omega)]
          rfl
      · have h0 : 0x80 ≤ c.toNat := by omega
        have hvalid2 : (if (DecodeRune ((c :: rest).take 4)).1 = RuneError ∧
            (DecodeRune ((c :: rest).take 4)).2 = 1 then false
            else validLoop fuel (rest.drop ((DecodeRune ((c :: rest).take 4)).2 - 1))) = true := by
          simp only [validLoop, hc, if_false] at hvalid
          exact hvalid
        have hnot : ¬ ((DecodeRune ((c :: rest).take 4)).1 = RuneError ∧
            (DecodeRune ((c :: rest).take 4)).2 = 1) := by
          intro hbad
          rw [if_pos hbad] at hvalid2
          cases hvalid2
        have hv : validLoop fuel (rest.drop ((DecodeRune ((c :: rest).take 4)).2 - 1))
            = true := by
          rw [if_neg hnot] at hvalid2
          exact hvalid2
        rcases DecodeRune_valid c rest h0 hnot with
          ⟨c1, t, hr, hd, b1, b2, b3, b4⟩ |
          ⟨c1, c2, t, hr, hd, b1, b2, b3, b4, b5, b6⟩ |
          ⟨c1, c2, c3, t, hr, hd, b1, b2, b3, b4, b5, b6, b7, b8, b9⟩
        · subst hr
          have hX := hd
          have hd := hX t
          rw [hd] at hv
          have hne : ¬ (c.toNat % 32 * 64 + c1.toNat % 64 = 0x2028 ∨
              c.toNat % 32 * 64 + c1.toNat % 64 = 0x2029) := by omega
          have hne2 : ¬ (c.toNat % 32 * 64 + c1.toNat % 64 = RuneError ∧ (2 : Nat) = 1) := by
            simp
          have henc : appendStringLoop (fuel + 1) (c :: c1 :: t)
              = [c, c1] ++ appendStringLoop fuel t := by
            simp only [appendStringLoop, hc, if_false, hd, hne, hne2]
            simp
          simp only [Nat.add_one_sub_one, List.drop_succ_cons, List.drop_zero] at hv
          rw [henc] at hF ⊢
          simp only [List.length_append, List.length_cons, List.length_nil] at hF
          obtain ⟨F', rfl⟩ : ∃ F', F = F' + 1 := ⟨F - 1, by omega⟩
          have hlen2 : t.length ≤ fuel := by simp at hrest; omega
          rw [show [c, c1] ++ appendStringLoop fuel t = c :: c1 :: appendStringLoop fuel t
            from rfl, unquote_rune F' c _ _ 2 h0 (hX _) (by decide)]
          show (unquoteLoop F' (appendStringLoop fuel t)).map (fun x => [c, c1] ++ x)
            = some (c :: c1 :: t)
          rw [ih t hlen2 hv F' (by omega)]
          rfl
        · subst hr
          have hX := hd
          have hd := hX t
          rw [hd] at hv
          simp only [Nat.add_one_sub_one, List.drop_succ_cons, List.drop_zero] at hv
          have hlen2 : t.length ≤ fuel := by simp at hrest; omega
          have hne2 : ¬ (c.toNat % 16 * 4096 + c1.toNat % 64 * 64 + c2.toNat % 64 = RuneError
              ∧ (3 : Nat) = 1) := by simp
          by_cases hu : c.toNat % 16 * 4096 + c1.toNat % 64 * 64 + c2.toNat % 64 = 0x2028 ∨
              c.toNat % 16 * 4096 + c1.toNat % 64 * 64 + c2.toNat % 64 = 0x2029
          · have henc : appendStringLoop (fuel + 1) (c :: c1 :: c2 :: t)
                = ['\\', 'u', '2', '0', '2', Nat.digitChar
                    ((c.toNat % 16 * 4096 + c1.toNat % 64 * 64 + c2.toNat % 64) % 16)]
                  ++ appendStringLoop fuel t := by
              simp only [appendStringLoop, hc, if_false, hd, hu, hne2, if_true]
              simp
            rw [henc] at hF ⊢
            simp only [List.length_append, List.length_cons, List.length_nil] at hF
            obtain ⟨F', rfl⟩ : ∃ F', F = F' + 1 := ⟨F - 1, by omega⟩
            have e0 : c = Char.ofNat 0xE2 := by
              rw [← Char.ofNat_toNat c]; congr 1; omega
            have e1 : c1 = Char.ofNat 0x80 := by
              rw [← Char.ofNat_toNat c1]; congr 1; omega
            simp only [List.cons_append, List.nil_append]
            rcases hu with hu | hu
            · have e2 : c2 = Char.ofNat 0xA8 := by
                rw [← Char.ofNat_toNat c2]; congr 1; omega
              rw [hu, unquote_u F' '2' '0' '2' _ _ 0x2028 (by decide) (by omega),
                ih t hlen2 hv F' (by omega), EncodeRune_2028, e0, e1, e2]
              rfl
            · have e2 : c2 = Char.ofNat 0xA9 := by
                rw [← Char.ofNat_toNat c2]; congr 1; omega
              rw [hu, unquote_u F' '2' '0' '2' _ _ 0x2029 (by decide) (by omega),
                ih t hlen2 hv F' (by omega), EncodeRune_2029, e0, e1, e2]
              rfl
          · have henc : appendStringLoop (fuel + 1) (c :: c1 :: c2 :: t)
                = [c, c1, c2] ++ appendStringLoop fuel t := by
              simp only [appendStringLoop, hc, if_false, hd, hu, hne2]
              simp
            rw [henc] at hF ⊢
            simp only [List.length_append, List.length_cons, List.length_nil] at hF
            obtain ⟨F', rfl⟩ : ∃ F', F = F' + 1 := ⟨F - 1, by omega⟩
            rw [show [c, c1, c2] ++ appendStringLoop fuel t
                = c :: c1 :: c2 :: appendStringLoop fuel t from rfl,
              unquote_rune F' c _ _ 3 h0 (hX _) (by decide)]
            show (unquoteLoop F' (appendStringLoop fuel t)).map (fun x => [c, c1, c2] ++ x)
              = some (c :: c1 :: c2 :: t)
            rw [ih t hlen2 hv F' (by omega)]
            rfl
        · subst hr
          have hX := hd
          have hd := hX t
          rw [hd] at hv
          simp only [Nat.add_one_sub_one, List.drop_succ_cons, List.drop_zero] at hv
          have hlen2 : t.length ≤ fuel := by simp at hrest; omega
          have hne : ¬ (c.toNat % 8 * 262144 + c1.toNat % 64 * 4096 + c2.toNat % 64 * 64
                + c3.toNat % 64 = 0x2028 ∨
              c.toNat % 8 * 262144 + c1.toNat % 64 * 4096 + c2.toNat % 64 * 64
                + c3.toNat % 64 = 0x2029) := by
            have := b9
            omega
          have hne2 : ¬ (c.toNat % 8 * 262144 + c1.toNat % 64 * 4096 + c2.toNat % 64 * 64
                + c3.toNat % 64 = RuneError ∧ (4 : Nat) = 1) := by simp
          have henc : appendStringLoop (fuel + 1) (c :: c1 :: c2 :: c3 :: t)
              = [c, c1, c2, c3] ++ appendStringLoop fuel t := by
            simp only [appendStringLoop, hc, if_false, hd, hne, hne2]
            simp
          rw [henc] at hF ⊢
          simp only [List.length_append, List.length_cons, List.length_nil] at hF
          obtain ⟨F', rfl⟩ : ∃ F', F = F' + 1 := ⟨F - 1, by omega⟩
          rw [show [c, c1, c2, c3] ++ appendStringLoop fuel t
              = c :: c1 :: c2 :: c3 :: appendStringLoop fuel t from rfl,
            unquote_rune F' c _ _ 4 h0 (hX _) (by decide)]
          show (unquoteLoop F' (appendStringLoop fuel t)).map (fun x => [c, c1, c2, c3] ++ x)
            = some (c :: c1 :: c2 :: c3 :: t)
          rw [ih t hlen2 hv F' (by omega)]
          rfl


/-- A valid UTF-8 string is read back from the literal written for it. -/
theorem jsonValue_jsonString (s : String) (h : ValidString s = true) :
    jsonValue (jsonString s) = some s := by
  have hrt := unquote_appendStringLoop s.data.length s.data (Nat.le_refl _) h
    ((appendStringLoop s.data.length s.data ++ ['"']).length) (by simp)
  simp only [jsonValue, jsonString, appendString, String.toList]
  rw [List.getLast?_append_cons, if_pos (by simp), List.dropLast_concat, hrt]
  rfl

/-- Some byte is written for every byte of the string. -/
theorem appendStringLoop_ne_nil (fuel : Nat) (c : Char) (rest : List Char) :
    appendStringLoop (fuel + 1) (c :: rest) ≠ [] := by
  by_cases hc : c.toNat < 0x80
  · by_cases hs : htmlSafe c.toNat = true
    · simp [appendStringLoop, hc, hs]
    · have := escapeByte_length c
      intro h
      simp only [appendStringLoop, hc, hs, if_true, if_false, Bool.false_eq_true,
        List.append_eq_nil] at h
      rw [h.1] at this
      simp at this
  · have h0 : 0x80 ≤ c.toNat := by omega
    by_cases hbad : (DecodeRune ((c :: rest).take 4)).1 = RuneError ∧
        (DecodeRune ((c :: rest).take 4)).2 = 1
    · simp only [appendStringLoop, hc, if_false, hbad, and_self, if_true]
      simp
    · by_cases hu : (DecodeRune ((c :: rest).take 4)).1 = 0x2028 ∨
          (DecodeRune ((c :: rest).take 4)).1 = 0x2029
      · simp only [appendStringLoop, hc, if_false, hbad, hu, if_true]
        simp
      · simp only [appendStringLoop, hc, if_false, hbad, hu]
        have hsize : (DecodeRune ((c :: rest).take 4)).2 ≠ 0 := by
          rcases DecodeRune_valid c rest h0 hbad with
            ⟨c1, t, hr, hd, _⟩ | ⟨c1, c2, t, hr, hd, _⟩ | ⟨c1, c2, c3, t, hr, hd, _⟩
          · subst hr; rw [hd t]; simp
          · subst hr; rw [hd t]; simp
          · subst hr; rw [hd t]; simp
        obtain ⟨k, hk⟩ : ∃ k, (DecodeRune ((c :: rest).take 4)).2 = k + 1 :=
          ⟨_, (Nat.succ_pred_eq_of_ne_zero hsize).symm⟩
        rw [hk]
        simp

/-- The literal written is `""` exactly for the empty string. -/
theorem jsonString_eq_empty (s : String) : jsonString s = "\"\"" ↔ s = "" := by
  constructor
  · intro h
    have hd := congrArg String.data h
    simp only [jsonString, appendString] at hd
    have hd2 := List.tail_eq_of_cons_eq hd
    have hnil : appendStringLoop s.data.length s.data = [] := by
      have := congrArg List.length hd2
      simp at this
      exact this
    apply String.ext
    cases hs : s.data with
    | nil => rfl
    | cons c rest =>
      exfalso
      rw [hs] at hnil
      exact appendStringLoop_ne_nil _ c rest hnil
  · intro h; subst h; rfl

/-- Bytes of `htmlSafeSet` are written as they are. -/
theorem appendStringLoop_safe (fuel : Nat) : ∀ l : List Char, l.length ≤ fuel →
    (∀ c ∈ l, htmlSafe c.toNat = true) → appendStringLoop fuel l = l := by
  induction fuel with
  | zero =>
    intro l hl _
    have : l = [] := List.length_eq_zero.mp (by omega)
    subst this; rfl
  | succ fuel ih =>
    intro l hl hs
    match l, hl, hs with
    | [], _, _ => rfl
    | c :: rest, hl, hs =>
      have hc := hs c (List.mem_cons_self _ _)
      have hlt : c.toNat < 0x80 := (htmlSafe_spec _ hc).2.1
      have hr := ih rest (by simp at hl; omega) (fun x hx => hs x (List.mem_cons_of_mem _ hx))
      simp [appendStringLoop, hlt, hc, hr]

theorem jsonString_safe (s : String) (h : ∀ c ∈ s.toList, htmlSafe c.toNat = true) :
    jsonString s = "\"" ++ s ++ "\"" := by
  apply String.ext
  have := appendStringLoop_safe s.toList.length s.toList (Nat.le_refl _) h
  simp only [jsonString, appendString, this, String.data_append]
  rfl

theorem isDigit_htmlSafe (c : Char) (h : c.isDigit = true) : htmlSafe c.toNat = true := by
  simp only [Char.isDigit, Bool.and_eq_true, decide_eq_true_eq] at h
  simp only [htmlSafe, decide_eq_true_eq]
  have h1 : 48 ≤ c.toNat := by
    have := h.1
    simpa [Char.toNat, UInt32.le_def] using this
  have h2 : c.toNat ≤ 57 := by
    have := h.2
    simpa [Char.toNat, UInt32.le_def] using this
  omega

/-- The text written for a map with the single key `key` whose literal is
`lit`. -/
theorem jsonEncode_single (key v : String) :
    jsonEncode [(key, v)]
      = "\x7b" ++ jsonString key ++ ":" ++ jsonString v ++ "\x7d\n" := by
  apply String.ext
  simp [jsonEncode, sortEntries, insertEntry, encodeEntries, jsonString]

/-- The text written for the map of `GetTokenDetails`. -/
theorem jsonEncode_details (n s : String) :
    jsonEncode [("name", n), ("symbol", s)]
      = "\x7b\"name\":" ++ jsonString n ++ ",\"symbol\":" ++ jsonString s ++ "\x7d\n" := by
  apply String.ext
  simp [jsonEncode, sortEntries, insertEntry, keyLess, encodeEntries, jsonString]
  rfl

theorem jsonEncode_head (m : List (String × String)) :
    (jsonEncode m).data.head? = some '\x7b' := rfl

/-- A text that does not start with an opening brace is not what `Encode`
writes. -/
theorem text_ne_jsonEncode (body : String) (c : Char) (m : List (String × String))
    (hc : c ≠ '\x7b') (h : body.data.head? = some c) : body ≠ jsonEncode m := by
  intro hb
  rw [hb, jsonEncode_head] at h
  exact hc (Option.some.inj h).symm

/-- An error text whose label does not start with an opening brace is not what
`Encode` writes. -/
theorem errorText_ne_jsonEncode (label err : String) (m : List (String × String)) (c : Char)
    (hl : label.data.head? = some c) (hc : c ≠ '\x7b') :
    label ++ err ++ "\n" ≠ jsonEncode m := by
  apply text_ne_jsonEncode _ c m hc
  simp only [String.data_append]
  cases hd : label.data with
  | nil => rw [hd] at hl; cases hl
  | cons a t => rw [hd] at hl; simpa using hl

/-! ## Lemmas: decimal printing -/

theorem digitChar_spec (d : Nat) (h : d < 10) :
    (Nat.digitChar d).isDigit = true ∧ (Nat.digitChar d).toNat - '0'.toNat = d := by
  interval_cases d <;> decide

theorem toDigitsCore_spec (fuel : Nat) : ∀ (n : Nat) (ds : List Char), n < fuel →
    ∃ pre : List Char, Nat.toDigitsCore 10 fuel n ds = pre ++ ds ∧ pre ≠ [] ∧
      (∀ c ∈ pre, c.isDigit = true) ∧
      ∀ init : Nat, pre.foldl (fun n c => n * 10 + (c.toNat - '0'.toNat)) init
        = init * 10 ^ pre.length + n := by
  induction fuel with
  | zero => intro n ds h; omega
  | succ fuel ih =>
    intro n ds h
    have hd := digitChar_spec (n % 10) (Nat.mod_lt n (by decide))
    by_cases h0 : n / 10 = 0
    · refine ⟨[Nat.digitChar (n % 10)], ?_, by simp, ?_, ?_⟩
      · simp [Nat.toDigitsCore, h0]
      · intro c hc
        simp only [List.mem_singleton] at hc
        rw [hc]; exact hd.1
      · intro init
        simp only [List.foldl_cons, List.foldl_nil, List.length_singleton, pow_one]
        rw [hd.2]; omega
    · have hlt : n / 10 < fuel := by omega
      obtain ⟨pre, hpre, _, hdig, hval⟩ := ih (n / 10) (Nat.digitChar (n % 10) :: ds) hlt
      refine ⟨pre ++ [Nat.digitChar (n % 10)], ?_, by simp, ?_, ?_⟩
      · simp [Nat.toDigitsCore, h0, hpre]
      · intro c hc
        rcases List.mem_append.mp hc with hc | hc
        · exact hdig c hc
        · simp only [List.mem_singleton] at hc
          rw [hc]; exact hd.1
      · intro init
        rw [List.foldl_append, hval init]
        simp only [List.foldl_cons, List.foldl_nil, List.length_append, List.length_singleton]
        rw [hd.2, pow_succ]
        have := Nat.div_add_mod n 10
        nlinarith [this]

/-- Printing a natural number in decimal and reading it back gives the number,
and the printed form is a non-empty string of digits. -/
theorem repr_spec (n : Nat) :
    (Nat.repr n).toNat? = some n ∧ Nat.repr n ≠ "" ∧
      (Nat.repr n).toList.all Char.isDigit = true := by
  obtain ⟨pre, hpre, hne, hdig, hval⟩ := toDigitsCore_spec (n + 1) n [] (Nat.lt_succ_self n)
  have hrepr : Nat.repr n = String.mk pre := by
    simp [Nat.repr, Nat.toDigits, hpre, List.asString]
  have hall : pre.all Char.isDigit = true := by
    rw [List.all_eq_true]; exact hdig
  have hne2 : String.mk pre ≠ "" := by
    intro h
    apply hne
    have := congrArg String.data h
    simpa using this
  refine ⟨?_, by rw [hrepr]; exact hne2, by rw [hrepr]; exact hall⟩
  rw [hrepr]
  unfold String.toNat? String.isNat
  have h1 : (String.mk pre).isEmpty = false := by
    rw [Bool.eq_false_iff]
    intro h
    exact hne2 ((String.isEmpty_iff _).mp h)
  rw [String.all_eq, String.foldl_eq, h1]
  simp only [hall, Bool.not_false, Bool.and_self, if_true]
  rw [hval 0]
  simp

/-- The `String` method of a non-negative `*big.Int` prints the natural number. -/
theorem bigIntString_ofNat (n : Nat) : bigIntString (some (Int.ofNat n)) = Nat.repr n := rfl

/-- The text written for a map with a single key whose value is a number in
decimal. -/
theorem jsonEncode_digits (key lit : String) (n : Nat) (hk : jsonString key = lit) :
    jsonEncode [(key, Nat.repr n)] = "\x7b" ++ lit ++ ":\"" ++ Nat.repr n ++ "\"\x7d\n" := by
  have hsafe : ∀ c ∈ (Nat.repr n).toList, htmlSafe c.toNat = true := by
    intro c hc
    apply isDigit_htmlSafe
    have := (repr_spec n).2.2
    rw [List.all_eq_true] at this
    exact this c hc
  rw [jsonEncode_single, jsonString_safe _ hsafe, hk]
  apply String.ext
  simp [String.data_append]

/-! ## Lemmas: the codec on `ERC20_ABI` -/

theorem method_name :
    contractABI.method? "name" = some ⟨"name", [], [.StringTy], [0x06, 0xfd, 0xde, 0x03]⟩ := rfl

theorem method_symbol :
    contractABI.method? "symbol"
      = some ⟨"symbol", [], [.StringTy], [0x95, 0xd8, 0x9b, 0x41]⟩ := rfl

theorem method_totalSupply :
    contractABI.method? "totalSupply"
      = some ⟨"totalSupply", [], [.Uint256Ty], [0x18, 0x16, 0x0d, 0xdd]⟩ := rfl

theorem method_balanceOf :
    contractABI.method? "balanceOf"
      = some ⟨"balanceOf", [.AddressTy], [.Uint256Ty], [0x70, 0xa0, 0x82, 0x31]⟩ := rfl

theorem pack_name : contractABI.Pack "name" [] = .ok [0x06, 0xfd, 0xde, 0x03] := rfl

theorem pack_symbol : contractABI.Pack "symbol" [] = .ok [0x95, 0xd8, 0x9b, 0x41] := rfl

theorem pack_totalSupply : contractABI.Pack "totalSupply" [] = .ok [0x18, 0x16, 0x0d, 0xdd] := rfl

theorem pack_balanceOf (a : Address) :
    contractABI.Pack "balanceOf" [.address a]
      = .ok ([0x70, 0xa0, 0x82, 0x31] ++ LeftPadBytes a.bytes 32) := by
  have h : ("balanceOf" : String) ≠ "" := by decide
  simp [ABI.Pack, h, method_balanceOf, ArgumentsPack, packLoop, AbiType.pack, AbiType.isDynamic,
    AbiType.kind, GoValue.kind, packElement]

theorem nodeCalls_append (a b : Trace) : nodeCalls (a ++ b) = nodeCalls a + nodeCalls b := by
  simp [nodeCalls, List.countP_append]

/-- Decoding the single `uint256` output of a method into a `*big.Int`. -/
theorem unpack_uint256 (name : String) (ins : List AbiType) (id : Bytes)
    (hm : contractABI.method? name = some ⟨name, ins, [.Uint256Ty], id⟩) (data : Bytes) :
    contractABI.UnpackIntoInterface (.bigInt none) name data
      = if data.length % 32 ≠ 0 then .error "abi: improperly formatted output"
        else if data.length = 0 then
          .error "abi: attempting to unmarshal an empty string while arguments are expected"
        else .ok (.bigInt (some (Int.ofNat (bytesToNat (slice data 0 32))))) := by
  by_cases h32 : data.length % 32 = 0
  · by_cases h0 : data.length = 0
    · simp [ABI.UnpackIntoInterface, ABI.getArguments, hm, h32, h0, ArgumentsUnpack]
    · have hge : ¬ (32 > data.length) := by omega
      simp [ABI.UnpackIntoInterface, ABI.getArguments, hm, h32, h0, ArgumentsUnpack,
        UnpackValues, toGoType, hge, ReadInteger, ArgumentsCopy, set, GoValue.typeName]
  · simp [ABI.UnpackIntoInterface, ABI.getArguments, hm, h32]

/-- Decoding the single `string` output of a method into a `string`. -/
theorem unpack_string (name : String) (ins : List AbiType) (id : Bytes)
    (hm : contractABI.method? name = some ⟨name, ins, [.StringTy], id⟩) (data : Bytes) :
    contractABI.UnpackIntoInterface (.string "") name data
      = if data.length % 32 ≠ 0 then .error "abi: improperly formatted output"
        else if data.length = 0 then
          .error "abi: attempting to unmarshal an empty string while arguments are expected"
        else match lengthPrefixPointsTo 0 data with
          | .error err => .error err
          | .ok (start, length) =>
            .ok (.string (bytesToString (slice data start (start + length)))) := by
  by_cases h32 : data.length % 32 = 0
  · by_cases h0 : data.length = 0
    · simp [ABI.UnpackIntoInterface, ABI.getArguments, hm, h32, h0, ArgumentsUnpack]
    · have hge : ¬ (32 > data.length) := by omega
      cases hl : lengthPrefixPointsTo 0 data with
      | error err =>
        simp [ABI.UnpackIntoInterface, ABI.getArguments, hm, h32, h0, ArgumentsUnpack,
          UnpackValues, toGoType, hge, hl]
      | ok p =>
        obtain ⟨start, length⟩ := p
        simp [ABI.UnpackIntoInterface, ABI.getArguments, hm, h32, h0, ArgumentsUnpack,
          UnpackValues, toGoType, hge, hl, ArgumentsCopy, set, GoValue.typeName]
  · simp [ABI.UnpackIntoInterface, ABI.getArguments, hm, h32]

/-! ## Lemmas: the helpers -/

/-- A successful `uint256` helper call returns a non-negative integer. -/
theorem getUint256_ok (client : Client) (name : String) (ins : List AbiType) (id : Bytes)
    (hm : contractABI.method? name = some ⟨name, ins, [.Uint256Ty], id⟩)
    (params : List GoValue) (tr : Trace) (v : Option Int)
    (h : (getUint256FromContract client name params tr).1 = (v, none)) :
    ∃ n : Nat, v = some (Int.ofNat n) := by
  unfold getUint256FromContract at h
  cases hP : contractABI.Pack name params with
  | error err => simp [callContract, hP] at h
  | ok data =>
    cases hC : client (tr ++ [.Pack name params]) ⟨contractAddr, data⟩ with
    | error err => simp [callContract, hP, hC] at h
    | ok out =>
      simp only [callContract, hP, hC] at h
      rw [unpack_uint256 name ins id hm out] at h
      by_cases h32 : out.length % 32 = 0
      · by_cases h0 : out.length = 0
        · simp [h32, h0] at h
        · simp [h32, h0] at h
          exact ⟨_, h.symm⟩
      · simp [h32] at h

/-- A `uint256` helper call either fails with an error and a nil result, or
returns a non-negative integer and no error. -/
theorem getUint256_cases (client : Client) (name : String) (ins : List AbiType) (id : Bytes)
    (hm : contractABI.method? name = some ⟨name, ins, [.Uint256Ty], id⟩)
    (params : List GoValue) (tr : Trace) :
    (∃ err, (getUint256FromContract client name params tr).1 = (none, some err)) ∨
    (∃ n : Nat,
      (getUint256FromContract client name params tr).1 = (some (Int.ofNat n), none)) := by
  rcases hr : (getUint256FromContract client name params tr).1 with ⟨v, e⟩
  cases e with
  | some err =>
    left
    refine ⟨err, ?_⟩
    unfold getUint256FromContract at hr
    cases hP : contractABI.Pack name params with
    | error err => simp [callContract, hP] at hr; simp [hr]
    | ok data =>
      cases hC : client (tr ++ [.Pack name params]) ⟨contractAddr, data⟩ with
      | error err => simp [callContract, hP, hC] at hr; simp [hr]
      | ok out =>
        simp only [callContract, hP, hC] at hr
        cases hU : contractABI.UnpackIntoInterface (.bigInt none) name out with
        | error err => simp [hU] at hr; simp [hr]
        | ok w => cases w <;> simp [hU] at hr
  | none =>
    right
    obtain ⟨n, hn⟩ := getUint256_ok client name ins id hm params tr v hr
    exact ⟨n, by rw [hn]⟩


/-! ## Lemmas: the helpers, case by case -/

theorem getUint256_pack_error (client : Client) (f : String) (ps : List GoValue) (tr : Trace)
    (err : String) (hP : contractABI.Pack f ps = .error err) :
    getUint256FromContract client f ps tr = ((none, some err), tr ++ [.Pack f ps]) := by
  simp [getUint256FromContract, callContract, hP]

theorem getUint256_call_error (client : Client) (f : String) (ps : List GoValue) (tr : Trace)
    (data : Bytes) (err : String) (hP : contractABI.Pack f ps = .ok data)
    (hC : client (tr ++ [.Pack f ps]) ⟨contractAddr, data⟩ = .error err) :
    getUint256FromContract client f ps tr
      = ((none, some err), tr ++ [.Pack f ps, .CallContract ⟨contractAddr, data⟩]) := by
  simp [getUint256FromContract, callContract, hP, hC]

theorem getUint256_unpack_error (client : Client) (f : String) (ps : List GoValue) (tr : Trace)
    (data out : Bytes) (err : String) (hP : contractABI.Pack f ps = .ok data)
    (hC : client (tr ++ [.Pack f ps]) ⟨contractAddr, data⟩ = .ok out)
    (hU : contractABI.UnpackIntoInterface (.bigInt none) f out = .error err) :
    getUint256FromContract client f ps tr
      = ((none, some err),
         tr ++ [.Pack f ps, .CallContract ⟨contractAddr, data⟩, .UnpackIntoInterface f out]) := by
  simp [getUint256FromContract, callContract, hP, hC, hU]

theorem getUint256_unpack_ok (client : Client) (f : String) (ps : List GoValue) (tr : Trace)
    (data out : Bytes) (v : Option Int) (hP : contractABI.Pack f ps = .ok data)
    (hC : client (tr ++ [.Pack f ps]) ⟨contractAddr, data⟩ = .ok out)
    (hU : contractABI.UnpackIntoInterface (.bigInt none) f out = .ok (.bigInt v)) :
    getUint256FromContract client f ps tr
      = ((v, none),
         tr ++ [.Pack f ps, .CallContract ⟨contractAddr, data⟩, .UnpackIntoInterface f out]) := by
  simp [getUint256FromContract, callContract, hP, hC, hU]

theorem getString_pack_error (client : Client) (f : String) (tr : Trace)
    (err : String) (hP : contractABI.Pack f [] = .error err) :
    getStringFromContract client f tr = (("", some err), tr ++ [.Pack f []]) := by
  simp [getStringFromContract, callContract, hP]

theorem getString_call_error (client : Client) (f : String) (tr : Trace)
    (data : Bytes) (err : String) (hP : contractABI.Pack f [] = .ok data)
    (hC : client (tr ++ [.Pack f []]) ⟨contractAddr, data⟩ = .error err) :
    getStringFromContract client f tr
      = (("", some err), tr ++ [.Pack f [], .CallContract ⟨contractAddr, data⟩]) := by
  simp [getStringFromContract, callContract, hP, hC]

theorem getString_unpack_error (client : Client) (f : String) (tr : Trace)
    (data out : Bytes) (err : String) (hP : contractABI.Pack f [] = .ok data)
    (hC : client (tr ++ [.Pack f []]) ⟨contractAddr, data⟩ = .ok out)
    (hU : contractABI.UnpackIntoInterface (.string "") f out = .error err) :
    getStringFromContract client f tr
      = (("", some err),
         tr ++ [.Pack f [], .CallContract ⟨contractAddr, data⟩, .UnpackIntoInterface f out]) := by
  simp [getStringFromContract, callContract, hP, hC, hU]

theorem getString_unpack_ok (client : Client) (f : String) (tr : Trace)
    (data out : Bytes) (s : String) (hP : contractABI.Pack f [] = .ok data)
    (hC : client (tr ++ [.Pack f []]) ⟨contractAddr, data⟩ = .ok out)
    (hU : contractABI.UnpackIntoInterface (.string "") f out = .ok (.string s)) :
    getStringFromContract client f tr
      = ((s, none),
         tr ++ [.Pack f [], .CallContract ⟨contractAddr, data⟩, .UnpackIntoInterface f out]) := by
  simp [getStringFromContract, callContract, hP, hC, hU]

/-- The outcome of decoding a `uint256` answer is an error or a natural number. -/
theorem unpack_uint256_cases (name : String) (ins : List AbiType) (id : Bytes)
    (hm : contractABI.method? name = some ⟨name, ins, [.Uint256Ty], id⟩) (data : Bytes) :
    (∃ err, contractABI.UnpackIntoInterface (.bigInt none) name data = .error err) ∨
    (contractABI.UnpackIntoInterface (.bigInt none) name data
      = .ok (.bigInt (some (Int.ofNat (bytesToNat (slice data 0 32)))))) := by
  rw [unpack_uint256 name ins id hm data]
  by_cases h32 : data.length % 32 = 0
  · by_cases h0 : data.length = 0
    · left; simp [h32, h0]
    · right; simp [h32, h0]
  · left; simp [h32]

/-- The three ways a call of `balanceOf` or `totalSupply` can end. -/
theorem getUint256_outcome (client : Client) (f : String) (ps : List GoValue) (tr : Trace)
    (ins : List AbiType) (id : Bytes)
    (hm : contractABI.method? f = some ⟨f, ins, [.Uint256Ty], id⟩)
    (data : Bytes) (hP : contractABI.Pack f ps = .ok data) :
    (∃ err, getUint256FromContract client f ps tr
        = ((none, some err), tr ++ [.Pack f ps, .CallContract ⟨contractAddr, data⟩])) ∨
    (∃ err out, getUint256FromContract client f ps tr
        = ((none, some err),
           tr ++ [.Pack f ps, .CallContract ⟨contractAddr, data⟩,
                  .UnpackIntoInterface f out])) ∨
    (∃ n out, getUint256FromContract client f ps tr
        = ((some (Int.ofNat n), none),
           tr ++ [.Pack f ps, .CallContract ⟨contractAddr, data⟩,
                  .UnpackIntoInterface f out])) := by
  cases hC : client (tr ++ [.Pack f ps]) ⟨contractAddr, data⟩ with
  | error err => exact Or.inl ⟨err, getUint256_call_error client f ps tr data err hP hC⟩
  | ok out =>
    rcases unpack_uint256_cases f ins id hm out with ⟨err, hU⟩ | hU
    · exact Or.inr (Or.inl ⟨err, out, getUint256_unpack_error client f ps tr data out err hP hC hU⟩)
    · exact Or.inr (Or.inr ⟨_, out, getUint256_unpack_ok client f ps tr data out _ hP hC hU⟩)

/-! ## Lemmas: decoding a string answer -/

theorem slice_length (b : Bytes) (lo hi : Nat) (h : hi ≤ b.length) :
    (slice b lo hi).length = hi - lo := by
  simp only [slice, List.length_take, List.length_drop]
  omega

theorem bytesToString_length (b : Bytes) : (bytesToString b).length = b.length := by
  simp [bytesToString, String.length]

/-- When the length prefix is accepted, the string starts right after the
length word and its length is the announced one, within the answer. -/
theorem lengthPrefixPointsTo_ok (data : Bytes) (start length : Nat)
    (h : lengthPrefixPointsTo 0 data = .ok (start, length)) :
    length = announcedLength data ∧ start + length ≤ data.length := by
  unfold lengthPrefixPointsTo at h
  simp only at h
  split at h
  · cases h
  · split at h
    · cases h
    · split at h
      · cases h
      · split at h
        · cases h
        · simp only [Except.ok.injEq, Prod.mk.injEq] at h
          obtain ⟨h1, h2⟩ := h
          subst h1 h2
          refine ⟨?_, by omega⟩
          simp [announcedLength]

theorem lengthPrefixPointsTo_start (data : Bytes) (start length : Nat)
    (h : lengthPrefixPointsTo 0 data = .ok (start, length)) :
    start = bytesToNat (slice data 0 32) + 32 := by
  unfold lengthPrefixPointsTo at h
  simp only at h
  split at h
  · cases h
  · split at h
    · cases h
    · split at h
      · cases h
      · split at h
        · cases h
        · simp only [Except.ok.injEq, Prod.mk.injEq] at h
          obtain ⟨h1, _⟩ := h
          subst h1
          simp

/-- The outcome of decoding a `string` answer is an error or the string the
answer encodes, which has the announced length. -/
theorem unpack_string_cases (name : String) (ins : List AbiType) (id : Bytes)
    (hm : contractABI.method? name = some ⟨name, ins, [.StringTy], id⟩) (data : Bytes) :
    (∃ err, contractABI.UnpackIntoInterface (.string "") name data = .error err) ∨
    (∃ s, contractABI.UnpackIntoInterface (.string "") name data = .ok (.string s) ∧
      s = decodedString data ∧ s.length = announcedLength data) := by
  rw [unpack_string name ins id hm data]
  by_cases h32 : data.length % 32 = 0
  · by_cases h0 : data.length = 0
    · left; simp [h32, h0]
    · cases hl : lengthPrefixPointsTo 0 data with
      | error err => left; simp [h32, h0]
      | ok p =>
        obtain ⟨start, length⟩ := p
        right
        obtain ⟨h1, h2⟩ := lengthPrefixPointsTo_ok data start length hl
        have h3 := lengthPrefixPointsTo_start data start length hl
        refine ⟨bytesToString (slice data start (start + length)), by simp [h32, h0], ?_, ?_⟩
        · rw [h3, h1, decodedString]
        · rw [bytesToString_length, slice_length _ _ _ h2, ← h1]
          omega
  · left; simp [h32]

/-- The three ways a call of `name` or `symbol` can end. -/
theorem getString_outcome (client : Client) (f : String) (tr : Trace)
    (ins : List AbiType) (id : Bytes)
    (hm : contractABI.method? f = some ⟨f, ins, [.StringTy], id⟩)
    (data : Bytes) (hP : contractABI.Pack f [] = .ok data) :
    (∃ err, client (tr ++ [.Pack f []]) ⟨contractAddr, data⟩ = .error err ∧
      getStringFromContract client f tr
        = (("", some err), tr ++ [.Pack f [], .CallContract ⟨contractAddr, data⟩])) ∨
    (∃ err out, client (tr ++ [.Pack f []]) ⟨contractAddr, data⟩ = .ok out ∧
      contractABI.UnpackIntoInterface (.string "") f out = .error err ∧
      getStringFromContract client f tr
        = (("", some err),
           tr ++ [.Pack f [], .CallContract ⟨contractAddr, data⟩,
                  .UnpackIntoInterface f out])) ∨
    (∃ s out, client (tr ++ [.Pack f []]) ⟨contractAddr, data⟩ = .ok out ∧
      s = decodedString out ∧ s.length = announcedLength out ∧
      getStringFromContract client f tr
        = ((s, none),
           tr ++ [.Pack f [], .CallContract ⟨contractAddr, data⟩,
                  .UnpackIntoInterface f out])) := by
  cases hC : client (tr ++ [.Pack f []]) ⟨contractAddr, data⟩ with
  | error err => exact Or.inl ⟨err, rfl, getString_call_error client f tr data err hP hC⟩
  | ok out =>
    rcases unpack_string_cases f ins id hm out with ⟨err, hU⟩ | ⟨s, hU, hdec, hlen⟩
    · exact Or.inr (Or.inl ⟨err, out, rfl, hU,
        getString_unpack_error client f tr data out err hP hC hU⟩)
    · exact Or.inr (Or.inr ⟨s, out, rfl, hdec, hlen,
        getString_unpack_ok client f tr data out s hP hC hU⟩)

/-! ## Lemmas: the handlers, case by case -/

theorem details_name_error (client : Client) (r : Request) (tr tr1 : Trace) (x err : String)
    (h : getStringFromContract client "name" tr = ((x, some err), tr1)) :
    GetTokenDetails client r tr
      = (⟨500, "text/plain; charset=utf-8", "Error fetching token name: " ++ err ++ "\n"⟩,
         tr1) := by
  simp [GetTokenDetails, h, httpError, StatusInternalServerError]

theorem details_symbol_error (client : Client) (r : Request) (tr tr1 tr2 : Trace)
    (n x err : String)
    (h1 : getStringFromContract client "name" tr = ((n, none), tr1))
    (h2 : getStringFromContract client "symbol" tr1 = ((x, some err), tr2)) :
    GetTokenDetails client r tr
      = (⟨500, "text/plain; charset=utf-8",
          "Error fetching token symbol: " ++ err ++ "\n"⟩, tr2) := by
  simp [GetTokenDetails, h1, h2, httpError, StatusInternalServerError]

theorem details_ok (client : Client) (r : Request) (tr tr1 tr2 : Trace) (n s : String)
    (h1 : getStringFromContract client "name" tr = ((n, none), tr1))
    (h2 : getStringFromContract client "symbol" tr1 = ((s, none), tr2)) :
    GetTokenDetails client r tr
      = (⟨200, "application/json", jsonEncode [("name", n), ("symbol", s)]⟩, tr2) := by
  simp [GetTokenDetails, h1, h2, writeJSON, StatusOK]

theorem supply_error (client : Client) (r : Request) (tr tr1 : Trace) (x : Option Int)
    (err : String)
    (h : getUint256FromContract client "totalSupply" [] tr = ((x, some err), tr1)) :
    GetTotalSupply client r tr
      = (⟨500, "text/plain; charset=utf-8",
          "Error fetching total supply: " ++ err ++ "\n"⟩, tr1) := by
  simp [GetTotalSupply, h, httpError, StatusInternalServerError]

theorem supply_ok (client : Client) (r : Request) (tr tr1 : Trace) (v : Option Int)
    (h : getUint256FromContract client "totalSupply" [] tr = ((v, none), tr1)) :
    GetTotalSupply client r tr
      = (⟨200, "application/json", jsonEncode [("total_supply", bigIntString v)]⟩, tr1) := by
  simp [GetTotalSupply, h, writeJSON, StatusOK]

theorem balance_error (client : Client) (r : Request) (tr tr1 : Trace) (x : Option Int)
    (err : String) (ha : r.Get "address" ≠ "")
    (h : getUint256FromContract client "balanceOf"
      [.address (HexToAddress (r.Get "address"))] tr = ((x, some err), tr1)) :
    GetTokenBalance client r tr
      = (⟨500, "text/plain; charset=utf-8",
          "Error fetching token balance: " ++ err ++ "\n"⟩, tr1) := by
  simp [GetTokenBalance, ha, h, httpError, StatusInternalServerError]

theorem balance_ok (client : Client) (r : Request) (tr tr1 : Trace) (v : Option Int)
    (ha : r.Get "address" ≠ "")
    (h : getUint256FromContract client "balanceOf"
      [.address (HexToAddress (r.Get "address"))] tr = ((v, none), tr1)) :
    GetTokenBalance client r tr
      = (⟨200, "application/json", jsonEncode [("balance", bigIntString v)]⟩, tr1) := by
  simp [GetTokenBalance, ha, h, writeJSON, StatusOK]

/-! ## Lemmas: encoding followed by decoding -/

theorem natToBytes_length (len : Nat) : ∀ n, (natToBytes len n).length = len := by
  induction len with
  | zero => intro n; rfl
  | succ len ih => intro n; simp [natToBytes, ih]

theorem bytesToNat_snoc (l : Bytes) (x : Byte) :
    bytesToNat (l ++ [x]) = bytesToNat l * 256 + x.val := by
  simp [bytesToNat, List.foldl_append]

/-- A number below `256^len` is read back from its `len` big-endian bytes. -/
theorem bytesToNat_natToBytes (len : Nat) : ∀ n, n < 256 ^ len →
    bytesToNat (natToBytes len n) = n := by
  induction len with
  | zero => intro n h; simp at h; subst h; rfl
  | succ len ih =>
    intro n h
    have hdiv : n / 256 < 256 ^ len := by
      rw [pow_succ] at h
      exact Nat.div_lt_of_lt_mul (by rw [Nat.mul_comm]; exact h)
    have hmod : ((Fin.ofNat (n % 256) : Fin 256)).val = n % 256 := by
      simp [Fin.ofNat]
    rw [natToBytes, bytesToNat_snoc, ih _ hdiv, hmod]
    omega

theorem slice_prefix (a rest : Bytes) : slice (a ++ rest) 0 a.length = a := by
  simp [slice]

theorem slice_middle (a b rest : Bytes) :
    slice (a ++ (b ++ rest)) a.length (a.length + b.length) = b := by
  simp [slice]

theorem RightPadBytes_take (b : Bytes) (l : Nat) : (RightPadBytes b l).take b.length = b := by
  unfold RightPadBytes
  split <;> simp

theorem RightPadBytes_length (b : Bytes) (l : Nat) (h : b.length ≤ l) :
    (RightPadBytes b l).length = l := by
  unfold RightPadBytes
  split
  · omega
  · simp only [List.length_append, List.length_replicate]; omega

/-- The encoding of a byte string as a single `string` return value decodes to
that byte string. -/
theorem decode_encode_bytes (b : Bytes) (hlen : b.length + 64 < 2 ^ 63) :
    (natToBytes 32 32 ++ packBytesSlice b).length % 32 = 0 ∧
    (natToBytes 32 32 ++ packBytesSlice b).length ≠ 0 ∧
    lengthPrefixPointsTo 0 (natToBytes 32 32 ++ packBytesSlice b) = .ok (64, b.length) ∧
    slice (natToBytes 32 32 ++ packBytesSlice b) 64 (64 + b.length) = b := by
  have hpad : b.length ≤ (b.length + 31) / 32 * 32 := by omega
  have hL := RightPadBytes_length b _ hpad
  have hlen256 : b.length < 256 ^ 32 := by
    have : (2 : Nat) ^ 63 ≤ 256 ^ 32 := by norm_num
    omega
  have htotal : (natToBytes 32 32 ++ packBytesSlice b).length
      = 64 + (b.length + 31) / 32 * 32 := by
    simp only [packBytesSlice, List.length_append, natToBytes_length, hL]
    omega
  have hfirst : slice (natToBytes 32 32 ++ packBytesSlice b) 0 (0 + 32) = natToBytes 32 32 := by
    have := slice_prefix (natToBytes 32 32) (packBytesSlice b)
    rw [natToBytes_length] at this
    simpa using this
  have hsecond : slice (natToBytes 32 32 ++ packBytesSlice b) 32 64 = natToBytes 32 b.length := by
    have := slice_middle (natToBytes 32 32) (natToBytes 32 b.length)
      (RightPadBytes b ((b.length + 31) / 32 * 32))
    rw [natToBytes_length, natToBytes_length] at this
    simpa [packBytesSlice] using this
  have h32 : bytesToNat (natToBytes 32 32) = 32 := bytesToNat_natToBytes 32 32 (by norm_num)
  have hb : bytesToNat (natToBytes 32 b.length) = b.length :=
    bytesToNat_natToBytes 32 b.length hlen256
  refine ⟨by rw [htotal]; omega, by rw [htotal]; omega, ?_, ?_⟩
  · unfold lengthPrefixPointsTo
    simp only [hfirst, h32, htotal]
    have e1 : ¬ (32 + 32 > 64 + (b.length + 31) / 32 * 32) := by omega
    have e2 : ¬ (32 + 32 ≥ 2 ^ 63) := by norm_num
    simp only [e1, e2, if_false]
    have e3 : slice (natToBytes 32 32 ++ packBytesSlice b) (32 + 32 - 32) (32 + 32)
        = natToBytes 32 b.length := hsecond
    simp only [e3, hb]
    have e4 : ¬ (32 + 32 + b.length ≥ 2 ^ 63) := by omega
    have e5 : ¬ (32 + 32 + b.length > 64 + (b.length + 31) / 32 * 32) := by omega
    simp only [e4, e5, if_false]
  · have hdrop : (natToBytes 32 32 ++ packBytesSlice b).drop 64
        = RightPadBytes b ((b.length + 31) / 32 * 32) := by
      have h64 : (natToBytes 32 32 ++ natToBytes 32 b.length).length = 64 := by
        simp [natToBytes_length]
      have : natToBytes 32 32 ++ packBytesSlice b
          = (natToBytes 32 32 ++ natToBytes 32 b.length)
            ++ RightPadBytes b ((b.length + 31) / 32 * 32) := by
        simp [packBytesSlice]
      rw [this, ← h64, List.drop_left]
    unfold slice
    rw [hdrop]
    have : 64 + b.length - 64 = b.length := by omega
    rw [this, RightPadBytes_take]

/-- A string whose characters are bytes is unchanged by `string([]byte(s))`. -/
theorem bytesToString_stringToBytes (s : String) (h : ∀ c ∈ s.toList, c.toNat < 256) :
    bytesToString (stringToBytes s) = s := by
  unfold bytesToString stringToBytes
  apply String.ext
  simp only [List.map_map]
  have : ∀ l : List Char, (∀ c ∈ l, c.toNat < 256) →
      l.map ((fun x : Byte => Char.ofNat x.val) ∘ (fun c : Char => Fin.ofNat c.toNat)) = l := by
    intro l hl
    induction l with
    | nil => rfl
    | cons c cs ih =>
      have hc : c.toNat < 256 := hl c (List.mem_cons_self _ _)
      have hcs := ih (fun d hd => hl d (List.mem_cons_of_mem _ hd))
      simp only [List.map_cons, hcs, Function.comp]
      congr 1
      have : ((Fin.ofNat c.toNat : Fin 256)).val = c.toNat := by
        simp [Fin.ofNat, Nat.mod_eq_of_lt hc]
      rw [this]
      exact Char.ofNat_toNat c
  exact this s.toList h

theorem stringToBytes_length (s : String) : (stringToBytes s).length = s.length := by
  unfold stringToBytes
  rw [List.length_map]
  rfl

/-- Decoding the encoding of a string of bytes gives the string back. -/
theorem unpack_encodeString (name : String) (ins : List AbiType) (id : Bytes)
    (hm : contractABI.method? name = some ⟨name, ins, [.StringTy], id⟩) (s : String)
    (hb : ∀ c ∈ s.toList, c.toNat < 256) (hlen : s.length + 64 < 2 ^ 63) :
    contractABI.UnpackIntoInterface (.string "") name (encodeString s) = .ok (.string s) := by
  have hlen2 : (stringToBytes s).length + 64 < 2 ^ 63 := by
    rw [stringToBytes_length]; exact hlen
  obtain ⟨h1, h2, h3, h4⟩ := decode_encode_bytes (stringToBytes s) hlen2
  rw [unpack_string name ins id hm]
  unfold encodeString
  rw [if_neg (fun h => h h1), if_neg h2, h3]
  simp only [h4, bytesToString_stringToBytes s hb]

/-- Decoding the 32-byte word of a number below `2^256` gives the number. -/
theorem unpack_word (name : String) (ins : List AbiType) (id : Bytes)
    (hm : contractABI.method? name = some ⟨name, ins, [.Uint256Ty], id⟩) (n : Nat)
    (hn : n < 2 ^ 256) :
    contractABI.UnpackIntoInterface (.bigInt none) name (natToBytes 32 n)
      = .ok (.bigInt (some (Int.ofNat n))) := by
  have hs : slice (natToBytes 32 n) 0 32 = natToBytes 32 n := by
    have := slice_prefix (natToBytes 32 n) []
    rw [natToBytes_length, List.append_nil] at this
    exact this
  have hv : bytesToNat (natToBytes 32 n) = n :=
    bytesToNat_natToBytes 32 n (by
      have : (256 : Nat) ^ 32 = 2 ^ 256 := by norm_num
      omega)
  rw [unpack_uint256 name ins id hm, natToBytes_length, hs, hv]
  simp

/-! ## Lemmas: what the handlers encode and decode -/

/-- The events a `uint256` helper call adds to the trace. -/
theorem getUint256_events (client : Client) (f : String) (ps : List GoValue) (tr : Trace) :
    ∃ added, (getUint256FromContract client f ps tr).2 = tr ++ added ∧
      ∀ e ∈ added, e = .Pack f ps ∨ (∃ m, e = .CallContract m) ∨
        (∃ d, e = .UnpackIntoInterface f d) := by
  cases hP : contractABI.Pack f ps with
  | error err =>
    rw [getUint256_pack_error client f ps tr err hP]
    exact ⟨_, rfl, by simp⟩
  | ok data =>
    cases hC : client (tr ++ [.Pack f ps]) ⟨contractAddr, data⟩ with
    | error err =>
      rw [getUint256_call_error client f ps tr data err hP hC]
      exact ⟨_, rfl, by simp⟩
    | ok out =>
      refine ⟨[.Pack f ps, .CallContract ⟨contractAddr, data⟩, .UnpackIntoInterface f out],
        ?_, by simp⟩
      cases hU : contractABI.UnpackIntoInterface (.bigInt none) f out with
      | error err => rw [getUint256_unpack_error client f ps tr data out err hP hC hU]
      | ok v => cases v <;> simp [getUint256FromContract, callContract, hP, hC, hU]

/-- The events a `string` helper call adds to the trace. -/
theorem getString_events (client : Client) (f : String) (tr : Trace) :
    ∃ added, (getStringFromContract client f tr).2 = tr ++ added ∧
      ∀ e ∈ added, e = .Pack f [] ∨ (∃ m, e = .CallContract m) ∨
        (∃ d, e = .UnpackIntoInterface f d) := by
  cases hP : contractABI.Pack f [] with
  | error err =>
    rw [getString_pack_error client f tr err hP]
    exact ⟨_, rfl, by simp⟩
  | ok data =>
    cases hC : client (tr ++ [.Pack f []]) ⟨contractAddr, data⟩ with
    | error err =>
      rw [getString_call_error client f tr data err hP hC]
      exact ⟨_, rfl, by simp⟩
    | ok out =>
      refine ⟨[.Pack f [], .CallContract ⟨contractAddr, data⟩, .UnpackIntoInterface f out],
        ?_, by simp⟩
      cases hU : contractABI.UnpackIntoInterface (.string "") f out with
      | error err => rw [getString_unpack_error client f tr data out err hP hC hU]
      | ok v => cases v <;> simp [getStringFromContract, callContract, hP, hC, hU]

/-- The trace of `GetTokenDetails` is the trace of the `name` sub-call, followed
or not by that of the `symbol` sub-call. -/
theorem details_trace (client : Client) (r : Request) (tr : Trace) :
    (GetTokenDetails client r tr).2 = (getStringFromContract client "name" tr).2 ∨
    (GetTokenDetails client r tr).2
      = (getStringFromContract client "symbol" (getStringFromContract client "name" tr).2).2 := by
  rcases hN : getStringFromContract client "name" tr with ⟨⟨n, e⟩, tr1⟩
  cases e with
  | some err => left; rw [details_name_error client r tr tr1 n err hN]
  | none =>
    right
    rcases hS : getStringFromContract client "symbol" tr1 with ⟨⟨s, e2⟩, tr2⟩
    cases e2 with
    | some err => rw [details_symbol_error client r tr tr1 tr2 n s err hN hS]
    | none => rw [details_ok client r tr tr1 tr2 n s hN hS]

theorem supply_trace (client : Client) (r : Request) (tr : Trace) :
    (GetTotalSupply client r tr).2 = (getUint256FromContract client "totalSupply" [] tr).2 := by
  rcases hT : getUint256FromContract client "totalSupply" [] tr with ⟨⟨v, e⟩, tr1⟩
  cases e with
  | some err => rw [supply_error client r tr tr1 v err hT]
  | none => rw [supply_ok client r tr tr1 v hT]

theorem balance_trace (client : Client) (r : Request) (tr : Trace)
    (ha : r.Get "address" ≠ "") :
    (GetTokenBalance client r tr).2
      = (getUint256FromContract client "balanceOf"
          [.address (HexToAddress (r.Get "address"))] tr).2 := by
  rcases hT : getUint256FromContract client "balanceOf"
    [.address (HexToAddress (r.Get "address"))] tr with ⟨⟨v, e⟩, tr1⟩
  cases e with
  | some err => rw [balance_error client r tr tr1 v err ha hT]
  | none => rw [balance_ok client r tr tr1 v ha hT]

theorem declaredCall_name : declaredCall "name" [] :=
  ⟨_, _, method_name, rfl, pack_name⟩

theorem declaredCall_symbol : declaredCall "symbol" [] :=
  ⟨_, _, method_symbol, rfl, pack_symbol⟩

theorem declaredCall_totalSupply : declaredCall "totalSupply" [] :=
  ⟨_, _, method_totalSupply, rfl, pack_totalSupply⟩

theorem declaredCall_balanceOf (a : Address) : declaredCall "balanceOf" [.address a] :=
  ⟨_, _, method_balanceOf, rfl, pack_balanceOf a⟩

/-- The output types `getArguments` hands to the decoder are those the method
declares. -/
theorem getArguments_ok (name : String) (data : Bytes) (args : List AbiType) (m : Method)
    (hm : contractABI.method? name = some m)
    (h : contractABI.getArguments name data = .ok args) : args = m.Outputs := by
  simp only [ABI.getArguments, hm] at h
  split at h
  · cases h
  · exact (Except.ok.inj h).symm

/-- Decoding is `getArguments`, `Unpack`, then `Copy` into the target. -/
theorem unpack_of_parts (dst : GoValue) (name : String) (data : Bytes) (args : List AbiType)
    (vals : List GoValue) (hga : contractABI.getArguments name data = .ok args)
    (hau : ArgumentsUnpack args data = .ok vals) :
    contractABI.UnpackIntoInterface dst name data = ArgumentsCopy args dst vals := by
  simp [ABI.UnpackIntoInterface, hga, hau]

/-- A value unpacked for a single `string` output is copied into a `string`. -/
theorem copy_string_ok (data : Bytes) (vals : List GoValue)
    (h : ArgumentsUnpack [.StringTy] data = .ok vals) :
    ∃ s, ArgumentsCopy [.StringTy] (.string "") vals = .ok (.string s) := by
  unfold ArgumentsUnpack at h
  split at h
  · simp at h
  · simp only [UnpackValues, toGoType] at h
    split at h
    · cases h
    · rename_i v hv
      split at hv
      · cases hv
      · split at hv
        · cases hv
        · simp only [Except.ok.injEq] at hv h
          subst hv h
          exact ⟨_, rfl⟩

/-- A value unpacked for a single `uint256` output is copied into a `*big.Int`. -/
theorem copy_uint256_ok (data : Bytes) (vals : List GoValue)
    (h : ArgumentsUnpack [.Uint256Ty] data = .ok vals) :
    ∃ i, ArgumentsCopy [.Uint256Ty] (.bigInt none) vals = .ok (.bigInt (some i)) := by
  unfold ArgumentsUnpack at h
  split at h
  · simp at h
  · simp only [UnpackValues, toGoType, ReadInteger] at h
    split at h
    · cases h
    · rename_i v hv
      split at hv
      · cases hv
      · simp only [Except.ok.injEq] at hv h
        subst hv h
        exact ⟨_, rfl⟩

/-- A `string` helper call succeeds when the node's answer unpacks under the
declared outputs of the method. -/
theorem getString_ok_of_unpack (client : Client) (f : String) (tr : Trace) (ins : List AbiType)
    (id data out : Bytes) (args : List AbiType) (vals : List GoValue)
    (hm : contractABI.method? f = some ⟨f, ins, [.StringTy], id⟩)
    (hP : contractABI.Pack f [] = .ok data)
    (hC : client (tr ++ [.Pack f []]) ⟨contractAddr, data⟩ = .ok out)
    (hga : contractABI.getArguments f out = .ok args)
    (hau : ArgumentsUnpack args out = .ok vals) :
    ∃ s, getStringFromContract client f tr
      = ((s, none), tr ++ [.Pack f [], .CallContract ⟨contractAddr, data⟩,
          .UnpackIntoInterface f out]) := by
  have hargs := getArguments_ok f out args _ hm hga
  simp only at hargs
  subst hargs
  obtain ⟨s, hs⟩ := copy_string_ok out vals hau
  have hU := unpack_of_parts (.string "") f out _ vals hga hau
  rw [hs] at hU
  exact ⟨s, getString_unpack_ok client f tr data out s hP hC hU⟩

/-- A `uint256` helper call succeeds when the node's answer unpacks under the
declared outputs of the method. -/
theorem getUint256_ok_of_unpack (client : Client) (f : String) (ps : List GoValue) (tr : Trace)
    (ins : List AbiType) (id data out : Bytes) (args : List AbiType) (vals : List GoValue)
    (hm : contractABI.method? f = some ⟨f, ins, [.Uint256Ty], id⟩)
    (hP : contractABI.Pack f ps = .ok data)
    (hC : client (tr ++ [.Pack f ps]) ⟨contractAddr, data⟩ = .ok out)
    (hga : contractABI.getArguments f out = .ok args)
    (hau : ArgumentsUnpack args out = .ok vals) :
    ∃ i, getUint256FromContract client f ps tr
      = ((some i, none), tr ++ [.Pack f ps, .CallContract ⟨contractAddr, data⟩,
          .UnpackIntoInterface f out]) := by
  have hargs := getArguments_ok f out args _ hm hga
  simp only at hargs
  subst hargs
  obtain ⟨i, hi⟩ := copy_uint256_ok out vals hau
  have hU := unpack_of_parts (.bigInt none) f out _ vals hga hau
  rw [hi] at hU
  exact ⟨i, getUint256_unpack_ok client f ps tr data out _ hP hC hU⟩

/-! ## Claims -/

/-- C1: when the `address` query parameter is absent or empty, `GetTokenBalance`
answers 400 "Missing address parameter" and leaves the trace as it was: nothing
is encoded and the node is not called, whatever the node would answer. -/
theorem GetTokenBalance_missing_address (client : Client) (r : Request) (tr : Trace)
    (h : ∀ kv, r.query.find? (fun kv => kv.1 == "address") = some kv → kv.2 = "") :
    GetTokenBalance client r tr
        = (⟨400, "text/plain; charset=utf-8", "Missing address parameter\n"⟩, tr) ∧
      nodeCalls (GetTokenBalance client r tr).2 = nodeCalls tr := by
  have hget : r.Get "address" = "" := by
    unfold Request.Get
    cases hf : r.query.find? (fun kv => kv.1 == "address") with
    | none => rfl
    | some kv => exact h kv hf
  have hres : GetTokenBalance client r tr
      = (⟨400, "text/plain; charset=utf-8", "Missing address parameter\n"⟩, tr) := by
    simp [GetTokenBalance, hget, httpError, StatusBadRequest]
  exact ⟨hres, by rw [hres]⟩

theorem GetTokenBalance_missing_address_witness :
    (∀ kv, bareRequest.query.find? (fun kv => kv.1 == "address") = some kv → kv.2 = "") ∧
    (GetTokenBalance stubNode bareRequest []
        = (⟨400, "text/plain; charset=utf-8", "Missing address parameter\n"⟩, []) ∧
      nodeCalls (GetTokenBalance stubNode bareRequest []).2 = nodeCalls []) :=
  ⟨fun _ h => (nomatch h),
   GetTokenBalance_missing_address stubNode bareRequest [] (fun _ h => (nomatch h))⟩

/-- C2 fails: the parameters "zzz" and "0x1234" are not valid addresses, yet the
handler calls the node once for each and answers 200 with the balance the node
gives for the address `HexToAddress` made of them. -/
theorem GetTokenBalance_invalid_address_reaches_node :
    IsHexAddress "zzz" = false ∧ IsHexAddress "0x1234" = false ∧
    (GetTokenBalance stubNode (balanceRequest "zzz") []).1
      = ⟨200, "application/json", "\x7b\"balance\":\"7\"\x7d\n"⟩ ∧
    nodeCalls (GetTokenBalance stubNode (balanceRequest "zzz") []).2 = 1 ∧
    (GetTokenBalance stubNode (balanceRequest "0x1234") []).1
      = ⟨200, "application/json", "\x7b\"balance\":\"7\"\x7d\n"⟩ ∧
    nodeCalls (GetTokenBalance stubNode (balanceRequest "0x1234") []).2 = 1 := by
  decide

/-- C2 as amended: a non-empty `address` parameter is never rejected.  Whatever
its syntax, it is converted by `HexToAddress`, `balanceOf` is encoded for the
resulting address, the node is called exactly once with that payload, and the
status is 200 or 500, never 400. -/
theorem GetTokenBalance_no_validation (client : Client) (r : Request) (tr : Trace)
    (h : r.Get "address" ≠ "") :
    ((GetTokenBalance client r tr).1.status = 200 ∨
      (GetTokenBalance client r tr).1.status = 500) ∧
    (∃ rest, (GetTokenBalance client r tr).2
        = tr ++ [.Pack "balanceOf" [.address (HexToAddress (r.Get "address"))],
            .CallContract ⟨contractAddr,
              [0x70, 0xa0, 0x82, 0x31] ++ LeftPadBytes (HexToAddress (r.Get "address")).bytes 32⟩]
          ++ rest ∧ nodeCalls rest = 0) ∧
    nodeCalls (GetTokenBalance client r tr).2 = nodeCalls tr + 1 := by
  have hP := pack_balanceOf (HexToAddress (r.Get "address"))
  have hG : GetTokenBalance client r tr
      = match getUint256FromContract client "balanceOf"
          [.address (HexToAddress (r.Get "address"))] tr with
        | ((_, some err), tr1) =>
          (httpError ("Error fetching token balance: " ++ err) StatusInternalServerError, tr1)
        | ((balance, none), tr1) => (writeJSON [("balance", bigIntString balance)], tr1) := by
    simp only [GetTokenBalance, h, if_false]
  rcases getUint256_outcome client "balanceOf" _ tr _ _ method_balanceOf _ hP with
    ⟨err, hr⟩ | ⟨err, out, hr⟩ | ⟨n, out, hr⟩
  · rw [hG, hr]
    refine ⟨Or.inr rfl, ⟨[], by simp, rfl⟩, ?_⟩
    simp [nodeCalls_append, nodeCalls]
  · rw [hG, hr]
    refine ⟨Or.inr rfl, ⟨[.UnpackIntoInterface "balanceOf" out], by simp, rfl⟩, ?_⟩
    simp [nodeCalls_append, nodeCalls]
  · rw [hG, hr]
    refine ⟨Or.inl rfl, ⟨[.UnpackIntoInterface "balanceOf" out], by simp, rfl⟩, ?_⟩
    simp [nodeCalls_append, nodeCalls]

theorem GetTokenBalance_no_validation_witness :
    (balanceRequest "zzz").Get "address" ≠ "" ∧
    (((GetTokenBalance downNode (balanceRequest "zzz") []).1.status = 200 ∨
      (GetTokenBalance downNode (balanceRequest "zzz") []).1.status = 500) ∧
    (∃ rest, (GetTokenBalance downNode (balanceRequest "zzz") []).2
        = [] ++ [.Pack "balanceOf" [.address (HexToAddress ((balanceRequest "zzz").Get "address"))],
            .CallContract ⟨contractAddr,
              [0x70, 0xa0, 0x82, 0x31]
                ++ LeftPadBytes (HexToAddress ((balanceRequest "zzz").Get "address")).bytes 32⟩]
          ++ rest ∧ nodeCalls rest = 0) ∧
    nodeCalls (GetTokenBalance downNode (balanceRequest "zzz") []).2 = nodeCalls [] + 1) :=
  ⟨by decide, GetTokenBalance_no_validation downNode (balanceRequest "zzz") [] (by decide)⟩

/-- C3: if the `name` or the `symbol` sub-call fails, `GetTokenDetails` answers
500 with a text body and never a JSON object.  When it is the `name` sub-call
that fails, the response is made of its error alone and the `symbol` sub-call
is not even started; when `name` succeeds and `symbol` fails, the response is
made of the `symbol` error alone and the name is not in it. -/
theorem GetTokenDetails_all_or_error (client : Client) (r : Request) (tr : Trace)
    (h : (getStringFromContract client "name" tr).1.2 ≠ none ∨
      (getStringFromContract client "symbol"
        (getStringFromContract client "name" tr).2).1.2 ≠ none) :
    (GetTokenDetails client r tr).1.status = 500 ∧
    (∀ obj, (GetTokenDetails client r tr).1.body ≠ jsonEncode obj) ∧
    (∀ err, (getStringFromContract client "name" tr).1.2 = some err →
      (GetTokenDetails client r tr).1
        = ⟨500, "text/plain; charset=utf-8",
            "Error fetching token name: " ++ err ++ "\n"⟩ ∧
      ∃ added, (GetTokenDetails client r tr).2 = tr ++ added ∧
        Event.Pack "symbol" [] ∉ added ∧ nodeCalls added ≤ 1) ∧
    (∀ err, (getStringFromContract client "name" tr).1.2 = none →
      (getStringFromContract client "symbol"
        (getStringFromContract client "name" tr).2).1.2 = some err →
      (GetTokenDetails client r tr).1
        = ⟨500, "text/plain; charset=utf-8",
            "Error fetching token symbol: " ++ err ++ "\n"⟩) := by
  rcases hN : getStringFromContract client "name" tr with ⟨⟨n, e⟩, tr1⟩
  rw [hN] at h
  cases e with
  | some err =>
    have hD := details_name_error client r tr tr1 n err hN
    rw [hD]
    refine ⟨rfl, fun obj => errorText_ne_jsonEncode "Error fetching token name: " err obj 'E'
      rfl (by decide), ?_, ?_⟩
    · intro err2 herr
      simp only [Option.some.injEq] at herr
      subst herr
      refine ⟨rfl, ?_⟩
      rcases getString_outcome client "name" tr _ _ method_name _ pack_name with
        ⟨e1, _, hr⟩ | ⟨e1, out, _, _, hr⟩ | ⟨s, out, _, _, _, hr⟩
      · rw [hN] at hr
        simp only [Prod.mk.injEq] at hr
        refine ⟨_, hr.2, by simp, by simp [nodeCalls]⟩
      · rw [hN] at hr
        simp only [Prod.mk.injEq] at hr
        refine ⟨_, hr.2, by simp, by simp [nodeCalls]⟩
      · rw [hN] at hr
        simp at hr
    · intro err2 herr
      simp at herr
  | none =>
    rcases hS : getStringFromContract client "symbol" tr1 with ⟨⟨s, e2⟩, tr2⟩
    simp only [hS] at h
    cases e2 with
    | none => simp at h
    | some err =>
      have hD := details_symbol_error client r tr tr1 tr2 n s err hN hS
      rw [hD]
      refine ⟨rfl, fun obj => errorText_ne_jsonEncode "Error fetching token symbol: " err obj 'E'
        rfl (by decide), ?_, ?_⟩
      · intro err2 herr
        simp at herr
      · intro err2 _ herr
        simp only [Option.some.injEq] at herr
        subst herr
        rfl

theorem GetTokenDetails_all_or_error_witness :
    ((getStringFromContract symbolRevertNode "name" []).1.2 ≠ none ∨
      (getStringFromContract symbolRevertNode "symbol"
        (getStringFromContract symbolRevertNode "name" []).2).1.2 ≠ none) ∧
    (GetTokenDetails symbolRevertNode bareRequest []).1
      = ⟨500, "text/plain; charset=utf-8",
          "Error fetching token symbol: execution reverted\n"⟩ ∧
    (GetTokenDetails downNode bareRequest []).1
      = ⟨500, "text/plain; charset=utf-8",
          "Error fetching token name: connection refused\n"⟩ ∧
    nodeCalls (GetTokenDetails downNode bareRequest []).2 = 1 ∧
    (GetTokenDetails symbolRevertNode bareRequest []).1.status = 500 :=
  ⟨by decide, by decide, by decide, by decide,
   (GetTokenDetails_all_or_error symbolRevertNode bareRequest [] (by decide)).1⟩

/-- C4: in each of the three handlers, an error returned by the helper gives
status 500 and a text body made of the handler's label, the error's message and
a newline; the status is 200 exactly when no helper call returned an error
(`GetTokenBalance` with a non-empty `address`). -/
theorem handlers_error_status (client : Client) (r : Request) (tr : Trace)
    (ha : r.Get "address" ≠ "") :
    (∀ err, (getUint256FromContract client "totalSupply" [] tr).1.2 = some err →
      (GetTotalSupply client r tr).1
        = ⟨500, "text/plain; charset=utf-8",
            "Error fetching total supply: " ++ err ++ "\n"⟩) ∧
    ((GetTotalSupply client r tr).1.status = 200 ↔
      (getUint256FromContract client "totalSupply" [] tr).1.2 = none) ∧
    (∀ err, (getUint256FromContract client "balanceOf"
        [.address (HexToAddress (r.Get "address"))] tr).1.2 = some err →
      (GetTokenBalance client r tr).1
        = ⟨500, "text/plain; charset=utf-8",
            "Error fetching token balance: " ++ err ++ "\n"⟩) ∧
    ((GetTokenBalance client r tr).1.status = 200 ↔
      (getUint256FromContract client "balanceOf"
        [.address (HexToAddress (r.Get "address"))] tr).1.2 = none) ∧
    (∀ err, (getStringFromContract client "name" tr).1.2 = some err →
      (GetTokenDetails client r tr).1
        = ⟨500, "text/plain; charset=utf-8",
            "Error fetching token name: " ++ err ++ "\n"⟩) ∧
    (∀ err, (getStringFromContract client "name" tr).1.2 = none →
      (getStringFromContract client "symbol"
        (getStringFromContract client "name" tr).2).1.2 = some err →
      (GetTokenDetails client r tr).1
        = ⟨500, "text/plain; charset=utf-8",
            "Error fetching token symbol: " ++ err ++ "\n"⟩) ∧
    ((GetTokenDetails client r tr).1.status = 200 ↔
      (getStringFromContract client "name" tr).1.2 = none ∧
      (getStringFromContract client "symbol"
        (getStringFromContract client "name" tr).2).1.2 = none) := by
  refine ⟨?_, ?_, ?_, ?_, ?_, ?_, ?_⟩
  · intro err herr
    rcases hT : getUint256FromContract client "totalSupply" [] tr with ⟨⟨v, e⟩, tr1⟩
    rw [hT] at herr
    simp only at herr
    subst herr
    rw [supply_error client r tr tr1 v err hT]
  · rcases hT : getUint256FromContract client "totalSupply" [] tr with ⟨⟨v, e⟩, tr1⟩
    cases e with
    | some err => rw [supply_error client r tr tr1 v err hT]; simp
    | none => rw [supply_ok client r tr tr1 v hT]; simp
  · intro err herr
    rcases hT : getUint256FromContract client "balanceOf"
      [.address (HexToAddress (r.Get "address"))] tr with ⟨⟨v, e⟩, tr1⟩
    rw [hT] at herr
    simp only at herr
    subst herr
    rw [balance_error client r tr tr1 v err ha hT]
  · rcases hT : getUint256FromContract client "balanceOf"
      [.address (HexToAddress (r.Get "address"))] tr with ⟨⟨v, e⟩, tr1⟩
    cases e with
    | some err => rw [balance_error client r tr tr1 v err ha hT]; simp
    | none => rw [balance_ok client r tr tr1 v ha hT]; simp
  · intro err herr
    rcases hN : getStringFromContract client "name" tr with ⟨⟨n, e⟩, tr1⟩
    rw [hN] at herr
    simp only at herr
    subst herr
    rw [details_name_error client r tr tr1 n err hN]
  · intro err hnone herr
    rcases hN : getStringFromContract client "name" tr with ⟨⟨n, e⟩, tr1⟩
    rw [hN] at hnone herr
    simp only at hnone herr
    subst hnone
    rcases hS : getStringFromContract client "symbol" tr1 with ⟨⟨s, e2⟩, tr2⟩
    rw [hS] at herr
    simp only at herr
    subst herr
    rw [details_symbol_error client r tr tr1 tr2 n s err hN hS]
  · rcases hN : getStringFromContract client "name" tr with ⟨⟨n, e⟩, tr1⟩
    cases e with
    | some err => rw [details_name_error client r tr tr1 n err hN]; simp
    | none =>
      rcases hS : getStringFromContract client "symbol" tr1 with ⟨⟨s, e2⟩, tr2⟩
      cases e2 with
      | some err => rw [details_symbol_error client r tr tr1 tr2 n s err hN hS]; simp
      | none => rw [details_ok client r tr tr1 tr2 n s hN hS]; simp

theorem handlers_error_status_witness :
    (balanceRequest "0x68E1Acf6b9f56267adDf65e1249B6aE321c0560E").Get "address" ≠ "" ∧
    (GetTotalSupply downNode bareRequest []).1
      = ⟨500, "text/plain; charset=utf-8",
          "Error fetching total supply: connection refused\n"⟩ ∧
    ((GetTokenBalance stubNode
        (balanceRequest "0x68E1Acf6b9f56267adDf65e1249B6aE321c0560E") []).1.status = 200 ↔
      (getUint256FromContract stubNode "balanceOf"
        [.address (HexToAddress ((balanceRequest
          "0x68E1Acf6b9f56267adDf65e1249B6aE321c0560E").Get "address"))] []).1.2 = none) :=
  ⟨by decide, by decide,
   (handlers_error_status stubNode
      (balanceRequest "0x68E1Acf6b9f56267adDf65e1249B6aE321c0560E") [] (by decide)).2.2.2.1⟩

/-- C5 fails: a node whose contract returns the bytes ff fe as name answers both
sub-calls, and the `name` sub-call decodes to these two bytes; the response is
200 but the value written for `name` is the literal of two `\ufffd` escapes,
which reads back as two replacement characters and not as the decoded string. -/
theorem GetTokenDetails_invalid_utf8_value :
    (getStringFromContract invalidNameNode "name" []).1 = (invalidName, none) ∧
    (getStringFromContract invalidNameNode "symbol"
      (getStringFromContract invalidNameNode "name" []).2).1 = ("TOK", none) ∧
    (GetTokenDetails invalidNameNode bareRequest []).1
      = ⟨200, "application/json",
          "\x7b\"name\":\"\\ufffd\\ufffd\",\"symbol\":\"TOK\"\x7d\n"⟩ ∧
    jsonValue "\"\\ufffd\\ufffd\""
      = some (String.mk [Char.ofNat 0xEF, Char.ofNat 0xBF, Char.ofNat 0xBD,
          Char.ofNat 0xEF, Char.ofNat 0xBF, Char.ofNat 0xBD]) ∧
    jsonValue (jsonString invalidName) ≠ some invalidName := by
  decide

/-- C5 as amended: when the `name` sub-call decodes to `n` and the `symbol`
sub-call to `s`, `GetTokenDetails` answers 200 with the JSON object whose two
keys are `name` and `symbol` and whose values are the JSON string literals
`json.Encoder` writes for `n` and `s`.  The literal written for a string that
is valid UTF-8 reads back as that string, so for valid UTF-8 the values are `n`
and `s`.  Every pair of valid UTF-8 strings occurs: against a node that answers
the two calls with the encodings of `a` and `b`, the response carries the
literals of `a` and `b`. -/
theorem GetTokenDetails_success (client : Client) (r : Request) (tr tr1 tr2 : Trace)
    (n s : String)
    (hn : getStringFromContract client "name" tr = ((n, none), tr1))
    (hs : getStringFromContract client "symbol" tr1 = ((s, none), tr2)) :
    GetTokenDetails client r tr
      = (⟨200, "application/json",
          "\x7b\"name\":" ++ jsonString n ++ ",\"symbol\":" ++ jsonString s ++ "\x7d\n"⟩,
         tr2) ∧
    (ValidString n = true → jsonValue (jsonString n) = some n) ∧
    (ValidString s = true → jsonValue (jsonString s) = some s) ∧
    ∀ (node : Client) (a b : String),
      ValidString a = true → ValidString b = true →
      (∀ c ∈ a.toList, c.toNat < 256) → (∀ c ∈ b.toList, c.toNat < 256) →
      a.length + 64 < 2 ^ 63 → b.length + 64 < 2 ^ 63 →
      node (tr ++ [.Pack "name" []]) ⟨contractAddr, [0x06, 0xfd, 0xde, 0x03]⟩
        = .ok (encodeString a) →
      node (tr ++ [.Pack "name" [], .CallContract ⟨contractAddr, [0x06, 0xfd, 0xde, 0x03]⟩,
          .UnpackIntoInterface "name" (encodeString a)] ++ [.Pack "symbol" []])
        ⟨contractAddr, [0x95, 0xd8, 0x9b, 0x41]⟩ = .ok (encodeString b) →
      (GetTokenDetails node r tr).1
        = ⟨200, "application/json",
            "\x7b\"name\":" ++ jsonString a ++ ",\"symbol\":" ++ jsonString b ++ "\x7d\n"⟩ ∧
      jsonValue (jsonString a) = some a ∧ jsonValue (jsonString b) = some b := by
  refine ⟨?_, jsonValue_jsonString n, jsonValue_jsonString s, ?_⟩
  · rw [details_ok client r tr tr1 tr2 n s hn hs, jsonEncode_details]
  · intro node a b hva hvb ha hb hla hlb hna hnb
    have h1 := getString_unpack_ok node "name" tr _ _ a pack_name hna
      (unpack_encodeString "name" _ _ method_name a ha hla)
    have h2 := getString_unpack_ok node "symbol" _ _ _ b pack_symbol hnb
      (unpack_encodeString "symbol" _ _ method_symbol b hb hlb)
    rw [details_ok node r tr _ _ a b h1 h2, jsonEncode_details]
    exact ⟨rfl, jsonValue_jsonString a hva, jsonValue_jsonString b hvb⟩

theorem GetTokenDetails_success_witness :
    getStringFromContract stubNode "name" [] = (("Token", none), stubNameTrace) ∧
    getStringFromContract stubNode "symbol" stubNameTrace = (("TOK", none), stubDetailsTrace) ∧
    (GetTokenDetails stubNode bareRequest []).1
      = ⟨200, "application/json", "\x7b\"name\":\"Token\",\"symbol\":\"TOK\"\x7d\n"⟩ ∧
    jsonValue (jsonString "TOK") = some "TOK" ∧
    GetTokenDetails stubNode bareRequest []
      = (⟨200, "application/json",
          "\x7b\"name\":" ++ jsonString "Token" ++ ",\"symbol\":" ++ jsonString "TOK"
            ++ "\x7d\n"⟩,
         stubDetailsTrace) :=
  ⟨by decide, by decide, by decide, by decide,
   (GetTokenDetails_success stubNode bareRequest [] stubNameTrace stubDetailsTrace "Token" "TOK"
     (by decide) (by decide)).1⟩

/-- C6 fails: a node whose contract returns the empty string for `name` and for
`symbol` answers both sub-calls successfully, and the response is 200 with both
values empty. -/
theorem GetTokenDetails_empty_values :
    (getStringFromContract emptyStringNode "name" []).1 = ("", none) ∧
    (getStringFromContract emptyStringNode "symbol"
      (getStringFromContract emptyStringNode "name" []).2).1 = ("", none) ∧
    (GetTokenDetails emptyStringNode bareRequest []).1
      = ⟨200, "application/json", "\x7b\"name\":\"\",\"symbol\":\"\"\x7d\n"⟩ := by
  decide

/-- C6 as amended: when both sub-calls succeed, with `dn` and `ds` the node's
two answers, the sub-calls return the strings that `dn` and `ds` encode, the
response is 200 and its `name` and `symbol` values are the JSON string literals
written for these two strings.  Each string has the length announced by the
length word of its answer, and its literal is the empty literal exactly when
that announced length is zero. -/
theorem GetTokenDetails_values_as_decoded (client : Client) (r : Request) (tr : Trace)
    (hn : (getStringFromContract client "name" tr).1.2 = none)
    (hs : (getStringFromContract client "symbol"
      (getStringFromContract client "name" tr).2).1.2 = none) :
    ∃ dn ds,
      client (tr ++ [.Pack "name" []]) ⟨contractAddr, [0x06, 0xfd, 0xde, 0x03]⟩ = .ok dn ∧
      client (tr ++ [.Pack "name" [], .CallContract ⟨contractAddr, [0x06, 0xfd, 0xde, 0x03]⟩,
          .UnpackIntoInterface "name" dn] ++ [.Pack "symbol" []])
        ⟨contractAddr, [0x95, 0xd8, 0x9b, 0x41]⟩ = .ok ds ∧
      (getStringFromContract client "name" tr).1.1 = decodedString dn ∧
      (getStringFromContract client "symbol"
        (getStringFromContract client "name" tr).2).1.1 = decodedString ds ∧
      (GetTokenDetails client r tr).1
        = ⟨200, "application/json",
            "\x7b\"name\":" ++ jsonString (decodedString dn) ++ ",\"symbol\":"
              ++ jsonString (decodedString ds) ++ "\x7d\n"⟩ ∧
      (decodedString dn).length = announcedLength dn ∧
      (decodedString ds).length = announcedLength ds ∧
      (jsonString (decodedString dn) = "\"\"" ↔ announcedLength dn = 0) ∧
      (jsonString (decodedString ds) = "\"\"" ↔ announcedLength ds = 0) := by
  have hlen : ∀ x : String, x = "" ↔ x.length = 0 := by
    intro x
    constructor
    · intro h; rw [h]; rfl
    · intro h
      have : x.data = [] := List.length_eq_zero.mp h
      exact String.ext this
  rcases getString_outcome client "name" tr _ _ method_name _ pack_name with
    ⟨e1, _, hr⟩ | ⟨e1, out, _, _, hr⟩ | ⟨n, dn, hCn, hdn, hln, hr⟩
  · rw [hr] at hn; simp at hn
  · rw [hr] at hn; simp at hn
  · rw [hr] at hs
    simp only at hs
    rcases getString_outcome client "symbol"
        (tr ++ [.Pack "name" [], .CallContract ⟨contractAddr, [0x06, 0xfd, 0xde, 0x03]⟩,
          .UnpackIntoInterface "name" dn]) _ _ method_symbol _ pack_symbol with
      ⟨e1, _, hr2⟩ | ⟨e1, out, _, _, hr2⟩ | ⟨s, ds, hCs, hds, hls, hr2⟩
    · rw [hr2] at hs; simp at hs
    · rw [hr2] at hs; simp at hs
    · subst hdn hds
      refine ⟨dn, ds, hCn, hCs, ?_, ?_, ?_, hln, hls, ?_, ?_⟩
      · rw [hr]
      · rw [hr, hr2]
      · rw [details_ok client r tr _ _ _ _ hr hr2, jsonEncode_details]
      · rw [jsonString_eq_empty, hlen, hln]
      · rw [jsonString_eq_empty, hlen, hls]

theorem GetTokenDetails_values_as_decoded_witness :
    (getStringFromContract stubNode "name" []).1.2 = none ∧
    (getStringFromContract stubNode "symbol"
      (getStringFromContract stubNode "name" []).2).1.2 = none ∧
    decodedString (encodeString "TOK") = "TOK" ∧
    announcedLength (encodeString "TOK") = 3 ∧
    decodedString (encodeString "") = "" ∧
    (GetTokenDetails stubNode bareRequest []).1.status = 200 :=
  ⟨by decide, by decide, by decide, by decide, by decide,
   (GetTokenDetails_values_as_decoded stubNode bareRequest [] (by decide) (by decide)).elim
     (fun _ h1 => h1.elim (fun _ h2 => congrArg Response.status h2.2.2.2.2.1))⟩

/-- C7: whatever integer the `totalSupply` sub-call decodes to, it is a natural
number `n` and `GetTotalSupply` answers 200 with the JSON object whose only
entry is `total_supply`, holding the decimal form of `n`; reading that string
back gives `n`.  Every `n` below `2^256` occurs: against a node that answers
with the 32-byte word of `n` the response holds the decimal form of `n`.
Printing has no upper bound: it round-trips for every natural number, 0 is
printed "0" and `2^200` in full. -/
theorem GetTotalSupply_decimal (client : Client) (r : Request) (tr : Trace) (v : Option Int)
    (h : (getUint256FromContract client "totalSupply" [] tr).1 = (v, none)) :
    (∃ n : Nat, v = some (Int.ofNat n) ∧
      (GetTotalSupply client r tr).1
        = ⟨200, "application/json", jsonEncode [("total_supply", Nat.repr n)]⟩ ∧
      (GetTotalSupply client r tr).1.body
        = "\x7b\"total_supply\":\"" ++ Nat.repr n ++ "\"\x7d\n" ∧
      (Nat.repr n).toNat? = some n) ∧
    (∀ (node : Client) (n : Nat), n < 2 ^ 256 →
      node (tr ++ [.Pack "totalSupply" []]) ⟨contractAddr, [0x18, 0x16, 0x0d, 0xdd]⟩
        = .ok (natToBytes 32 n) →
      (GetTotalSupply node r tr).1
        = ⟨200, "application/json", jsonEncode [("total_supply", Nat.repr n)]⟩) ∧
    (∀ m : Nat, (bigIntString (some (Int.ofNat m))).toNat? = some m) ∧
    bigIntString (some 0) = "0" ∧
    bigIntString (some (Int.ofNat (2 ^ 200)))
      = "1606938044258990275541962092341162602522202993782792835301376" := by
  refine ⟨?_, ?_, fun m => (repr_spec m).1, rfl, by decide⟩
  · obtain ⟨n, hn⟩ := getUint256_ok client "totalSupply" _ _ method_totalSupply [] tr v h
    subst hn
    rcases hT : getUint256FromContract client "totalSupply" [] tr with ⟨⟨w, e⟩, tr1⟩
    rw [hT] at h
    simp only [Prod.mk.injEq] at h
    obtain ⟨h1, h2⟩ := h
    subst h1 h2
    rw [supply_ok client r tr tr1 _ hT, bigIntString_ofNat]
    exact ⟨n, rfl, rfl, jsonEncode_digits "total_supply" "\"total_supply\"" n rfl,
      (repr_spec n).1⟩
  · intro node n hn hnode
    have h1 := getUint256_unpack_ok node "totalSupply" [] tr _ _ _ pack_totalSupply hnode
      (unpack_word "totalSupply" _ _ method_totalSupply n hn)
    rw [supply_ok node r tr _ _ h1, bigIntString_ofNat]

theorem GetTotalSupply_decimal_witness :
    (getUint256FromContract stubNode "totalSupply" [] []).1
      = (some (Int.ofNat (2 ^ 200)), none) ∧
    (GetTotalSupply stubNode bareRequest []).1
      = ⟨200, "application/json",
          "\x7b\"total_supply\":\"1606938044258990275541962092341162602522202993782792835301376\"\x7d\n"⟩ ∧
    (GetTotalSupply zeroNode bareRequest []).1
      = ⟨200, "application/json", "\x7b\"total_supply\":\"0\"\x7d\n"⟩ ∧
    ((∃ n : Nat, some (Int.ofNat (2 ^ 200)) = some (Int.ofNat n) ∧
      (GetTotalSupply stubNode bareRequest []).1
        = ⟨200, "application/json", jsonEncode [("total_supply", Nat.repr n)]⟩ ∧
      (GetTotalSupply stubNode bareRequest []).1.body
        = "\x7b\"total_supply\":\"" ++ Nat.repr n ++ "\"\x7d\n" ∧
      (Nat.repr n).toNat? = some n) ∧
    (∀ (node : Client) (n : Nat), n < 2 ^ 256 →
      node ([] ++ [.Pack "totalSupply" []]) ⟨contractAddr, [0x18, 0x16, 0x0d, 0xdd]⟩
        = .ok (natToBytes 32 n) →
      (GetTotalSupply node bareRequest []).1
        = ⟨200, "application/json", jsonEncode [("total_supply", Nat.repr n)]⟩) ∧
    (∀ m : Nat, (bigIntString (some (Int.ofNat m))).toNat? = some m) ∧
    bigIntString (some 0) = "0" ∧
    bigIntString (some (Int.ofNat (2 ^ 200)))
      = "1606938044258990275541962092341162602522202993782792835301376") :=
  ⟨by decide, by decide, by decide,
   GetTotalSupply_decimal stubNode bareRequest [] (some (Int.ofNat (2 ^ 200))) (by decide)⟩

/-- C8: for a syntactically valid `address` and any node, `GetTokenBalance`
answers either 200 with the JSON object whose only entry `balance` is the
decimal form of a natural number (a non-empty string of digits, no sign), or
500 with a text body: the label, the error's message and a newline. -/
theorem GetTokenBalance_outcomes (client : Client) (r : Request) (tr : Trace)
    (h : IsHexAddress (r.Get "address") = true) :
    ((GetTokenBalance client r tr).1.status = 200 ∧
      ∃ n : Nat, (GetTokenBalance client r tr).1.body = jsonEncode [("balance", Nat.repr n)] ∧
        (GetTokenBalance client r tr).1.body
          = "\x7b\"balance\":\"" ++ Nat.repr n ++ "\"\x7d\n" ∧
        Nat.repr n ≠ "" ∧ (Nat.repr n).toList.all Char.isDigit = true) ∨
    ((GetTokenBalance client r tr).1.status = 500 ∧
      (GetTokenBalance client r tr).1.contentType = "text/plain; charset=utf-8" ∧
      ∃ err, (GetTokenBalance client r tr).1.body
        = "Error fetching token balance: " ++ err ++ "\n") := by
  have ha : r.Get "address" ≠ "" := by
    intro h0
    rw [h0] at h
    exact absurd h (by decide)
  rcases getUint256_outcome client "balanceOf" [.address (HexToAddress (r.Get "address"))] tr
      _ _ method_balanceOf _ (pack_balanceOf _) with
    ⟨err, hr⟩ | ⟨err, out, hr⟩ | ⟨n, out, hr⟩
  · rw [balance_error client r tr _ _ err ha hr]
    exact Or.inr ⟨rfl, rfl, err, rfl⟩
  · rw [balance_error client r tr _ _ err ha hr]
    exact Or.inr ⟨rfl, rfl, err, rfl⟩
  · rw [balance_ok client r tr _ _ ha hr, bigIntString_ofNat]
    exact Or.inl ⟨rfl, n, rfl, jsonEncode_digits "balance" "\"balance\"" n rfl,
      (repr_spec n).2.1, (repr_spec n).2.2⟩

theorem GetTokenBalance_outcomes_witness :
    IsHexAddress ((balanceRequest "0x68E1Acf6b9f56267adDf65e1249B6aE321c0560E").Get "address")
      = true ∧
    (GetTokenBalance stubNode
        (balanceRequest "0x68E1Acf6b9f56267adDf65e1249B6aE321c0560E") []).1
      = ⟨200, "application/json", "\x7b\"balance\":\"7\"\x7d\n"⟩ ∧
    (GetTokenBalance downNode
        (balanceRequest "0x68E1Acf6b9f56267adDf65e1249B6aE321c0560E") []).1
      = ⟨500, "text/plain; charset=utf-8",
          "Error fetching token balance: connection refused\n"⟩ ∧
    (GetTokenBalance stubNode
        (balanceRequest "0x68E1Acf6b9f56267adDf65e1249B6aE321c0560E") []).1.status = 200 :=
  ⟨by decide, by decide, by decide,
   (GetTokenBalance_outcomes stubNode
     (balanceRequest "0x68E1Acf6b9f56267adDf65e1249B6aE321c0560E") [] (by decide)).elim
     (fun h => h.1) (fun h => absurd h.1 (by decide))⟩

/-- C9: for every function name and argument list, each helper encodes, then
calls the node once, then decodes, and stops at the first error, which it
returns unchanged with a zero result (nil, or the empty string).  If encoding
fails the trace gains the `Pack` event only (no node call); if the node call
fails the trace gains `Pack` and `CallContract` only (no decode) and the error
is the node's; otherwise the trace gains `Pack`, `CallContract` and
`UnpackIntoInterface`, and a decoding error is returned as it is.  A helper
call adds at most one node call to the trace. -/
theorem helpers_first_error (client : Client) (functionName : String) (params : List GoValue)
    (tr : Trace) :
    (match contractABI.Pack functionName params with
     | .error err =>
       getUint256FromContract client functionName params tr
         = ((none, some err), tr ++ [.Pack functionName params])
     | .ok data =>
       match client (tr ++ [.Pack functionName params]) ⟨contractAddr, data⟩ with
       | .error err =>
         getUint256FromContract client functionName params tr
           = ((none, some err),
              tr ++ [.Pack functionName params, .CallContract ⟨contractAddr, data⟩])
       | .ok out =>
         (getUint256FromContract client functionName params tr).2
           = tr ++ [.Pack functionName params, .CallContract ⟨contractAddr, data⟩,
                    .UnpackIntoInterface functionName out] ∧
         match contractABI.UnpackIntoInterface (.bigInt none) functionName out with
         | .error err =>
           (getUint256FromContract client functionName params tr).1 = (none, some err)
         | .ok _ => (getUint256FromContract client functionName params tr).1.2 = none) ∧
    (match contractABI.Pack functionName [] with
     | .error err =>
       getStringFromContract client functionName tr
         = (("", some err), tr ++ [.Pack functionName []])
     | .ok data =>
       match client (tr ++ [.Pack functionName []]) ⟨contractAddr, data⟩ with
       | .error err =>
         getStringFromContract client functionName tr
           = (("", some err),
              tr ++ [.Pack functionName [], .CallContract ⟨contractAddr, data⟩])
       | .ok out =>
         (getStringFromContract client functionName tr).2
           = tr ++ [.Pack functionName [], .CallContract ⟨contractAddr, data⟩,
                    .UnpackIntoInterface functionName out] ∧
         match contractABI.UnpackIntoInterface (.string "") functionName out with
         | .error err =>
           (getStringFromContract client functionName tr).1 = ("", some err)
         | .ok _ => (getStringFromContract client functionName tr).1.2 = none) ∧
    nodeCalls (getUint256FromContract client functionName params tr).2 ≤ nodeCalls tr + 1 ∧
    nodeCalls (getStringFromContract client functionName tr).2 ≤ nodeCalls tr + 1 := by
  refine ⟨?_, ?_, ?_, ?_⟩
  · cases hP : contractABI.Pack functionName params with
    | error err => simp [getUint256FromContract, callContract, hP]
    | ok data =>
      cases hC : client (tr ++ [.Pack functionName params]) ⟨contractAddr, data⟩ with
      | error err => simp [getUint256FromContract, callContract, hP, hC]
      | ok out =>
        cases hU : contractABI.UnpackIntoInterface (.bigInt none) functionName out with
        | error err => simp [getUint256FromContract, callContract, hP, hC, hU]
        | ok v => cases v <;> simp [getUint256FromContract, callContract, hP, hC, hU]
  · cases hP : contractABI.Pack functionName [] with
    | error err => simp [getStringFromContract, callContract, hP]
    | ok data =>
      cases hC : client (tr ++ [.Pack functionName []]) ⟨contractAddr, data⟩ with
      | error err => simp [getStringFromContract, callContract, hP, hC]
      | ok out =>
        cases hU : contractABI.UnpackIntoInterface (.string "") functionName out with
        | error err => simp [getStringFromContract, callContract, hP, hC, hU]
        | ok v => cases v <;> simp [getStringFromContract, callContract, hP, hC, hU]
  · cases hP : contractABI.Pack functionName params with
    | error err => simp [getUint256FromContract, callContract, hP, nodeCalls_append, nodeCalls]
    | ok data =>
      cases hC : client (tr ++ [.Pack functionName params]) ⟨contractAddr, data⟩ with
      | error err => simp [getUint256FromContract, callContract, hP, hC, nodeCalls_append, nodeCalls]
      | ok out =>
        cases hU : contractABI.UnpackIntoInterface (.bigInt none) functionName out with
        | error err => simp [getUint256FromContract, callContract, hP, hC, hU, nodeCalls_append, nodeCalls]
        | ok v => cases v <;> simp [getUint256FromContract, callContract, hP, hC, hU, nodeCalls_append, nodeCalls]
  · cases hP : contractABI.Pack functionName [] with
    | error err => simp [getStringFromContract, callContract, hP, nodeCalls_append, nodeCalls]
    | ok data =>
      cases hC : client (tr ++ [.Pack functionName []]) ⟨contractAddr, data⟩ with
      | error err => simp [getStringFromContract, callContract, hP, hC, nodeCalls_append, nodeCalls]
      | ok out =>
        cases hU : contractABI.UnpackIntoInterface (.string "") functionName out with
        | error err => simp [getStringFromContract, callContract, hP, hC, hU, nodeCalls_append, nodeCalls]
        | ok v => cases v <;> simp [getStringFromContract, callContract, hP, hC, hU, nodeCalls_append, nodeCalls]

/-- C10: every contract function the handlers invoke is declared in `ERC20_ABI`
with the arity and types they use.  The table declares `name` and `symbol`
with no input and one string, `totalSupply` with no input and one uint256,
`balanceOf` with one address and one uint256.  In every run of a handler, each
`Pack` event it adds to the trace is for one of these functions with arguments
of the declared kinds, and the encoding succeeds: `name` and `symbol` without
arguments in `GetTokenDetails`, `totalSupply` without arguments in
`GetTotalSupply`, `balanceOf` with the converted address in `GetTokenBalance`.
The decode target matches the declared output: whenever the node's answer
unpacks under the declared outputs, copying into the handler's `string` or
`*big.Int` variable succeeds and the handler answers 200; copying a uint256
into a `string` would fail. -/
theorem ERC20_ABI_covers_handlers (client : Client) (r : Request) (tr : Trace) :
    (contractABI.method? "name"
      = some ⟨"name", [], [.StringTy], [0x06, 0xfd, 0xde, 0x03]⟩ ∧
     contractABI.method? "symbol"
      = some ⟨"symbol", [], [.StringTy], [0x95, 0xd8, 0x9b, 0x41]⟩ ∧
     contractABI.method? "totalSupply"
      = some ⟨"totalSupply", [], [.Uint256Ty], [0x18, 0x16, 0x0d, 0xdd]⟩ ∧
     contractABI.method? "balanceOf"
      = some ⟨"balanceOf", [.AddressTy], [.Uint256Ty], [0x70, 0xa0, 0x82, 0x31]⟩) ∧
    (∃ added, (GetTokenDetails client r tr).2 = tr ++ added ∧
      ∀ f ps, Event.Pack f ps ∈ added →
        (f = "name" ∨ f = "symbol") ∧ ps = [] ∧ declaredCall f ps) ∧
    (∃ added, (GetTotalSupply client r tr).2 = tr ++ added ∧
      ∀ f ps, Event.Pack f ps ∈ added →
        f = "totalSupply" ∧ ps = [] ∧ declaredCall f ps) ∧
    (∃ added, (GetTokenBalance client r tr).2 = tr ++ added ∧
      ∀ f ps, Event.Pack f ps ∈ added →
        f = "balanceOf" ∧ ps = [.address (HexToAddress (r.Get "address"))] ∧
        declaredCall f ps) ∧
    (∀ dn ds argsName argsSymbol vn vs,
      client (tr ++ [.Pack "name" []]) ⟨contractAddr, [0x06, 0xfd, 0xde, 0x03]⟩ = .ok dn →
      contractABI.getArguments "name" dn = .ok argsName →
      ArgumentsUnpack argsName dn = .ok vn →
      client (tr ++ [.Pack "name" [], .CallContract ⟨contractAddr, [0x06, 0xfd, 0xde, 0x03]⟩,
          .UnpackIntoInterface "name" dn] ++ [.Pack "symbol" []])
        ⟨contractAddr, [0x95, 0xd8, 0x9b, 0x41]⟩ = .ok ds →
      contractABI.getArguments "symbol" ds = .ok argsSymbol →
      ArgumentsUnpack argsSymbol ds = .ok vs →
      (GetTokenDetails client r tr).1.status = 200) ∧
    (∀ out args vals,
      client (tr ++ [.Pack "totalSupply" []]) ⟨contractAddr, [0x18, 0x16, 0x0d, 0xdd]⟩
        = .ok out →
      contractABI.getArguments "totalSupply" out = .ok args →
      ArgumentsUnpack args out = .ok vals →
      (GetTotalSupply client r tr).1.status = 200) ∧
    (∀ out args vals, r.Get "address" ≠ "" →
      client (tr ++ [.Pack "balanceOf" [.address (HexToAddress (r.Get "address"))]])
        ⟨contractAddr,
          [0x70, 0xa0, 0x82, 0x31] ++ LeftPadBytes (HexToAddress (r.Get "address")).bytes 32⟩
        = .ok out →
      contractABI.getArguments "balanceOf" out = .ok args →
      ArgumentsUnpack args out = .ok vals →
      (GetTokenBalance client r tr).1.status = 200) ∧
    contractABI.UnpackIntoInterface (.string "") "totalSupply" (natToBytes 32 7)
      = .error "abi: cannot unmarshal *big.Int in to string" := by
  refine ⟨⟨rfl, rfl, rfl, rfl⟩, ?_, ?_, ?_, ?_, ?_, ?_, rfl⟩
  · obtain ⟨a1, h1, m1⟩ := getString_events client "name" tr
    obtain ⟨a2, h2, m2⟩ := getString_events client "symbol"
      (getStringFromContract client "name" tr).2
    rcases details_trace client r tr with hd | hd
    · refine ⟨a1, by rw [hd, h1], ?_⟩
      intro f ps hmem
      rcases m1 _ hmem with he | ⟨m, he⟩ | ⟨d, he⟩
      · cases he; exact ⟨Or.inl rfl, rfl, declaredCall_name⟩
      · cases he
      · cases he
    · refine ⟨a1 ++ a2, by rw [hd, h2, h1, List.append_assoc], ?_⟩
      intro f ps hmem
      rcases List.mem_append.mp hmem with hmem | hmem
      · rcases m1 _ hmem with he | ⟨m, he⟩ | ⟨d, he⟩
        · cases he; exact ⟨Or.inl rfl, rfl, declaredCall_name⟩
        · cases he
        · cases he
      · rcases m2 _ hmem with he | ⟨m, he⟩ | ⟨d, he⟩
        · cases he; exact ⟨Or.inr rfl, rfl, declaredCall_symbol⟩
        · cases he
        · cases he
  · obtain ⟨a1, h1, m1⟩ := getUint256_events client "totalSupply" [] tr
    refine ⟨a1, by rw [supply_trace, h1], ?_⟩
    intro f ps hmem
    rcases m1 _ hmem with he | ⟨m, he⟩ | ⟨d, he⟩
    · cases he; exact ⟨rfl, rfl, declaredCall_totalSupply⟩
    · cases he
    · cases he
  · by_cases ha : r.Get "address" = ""
    · refine ⟨[], ?_, by simp⟩
      simp [GetTokenBalance, ha]
    · obtain ⟨a1, h1, m1⟩ := getUint256_events client "balanceOf"
        [.address (HexToAddress (r.Get "address"))] tr
      refine ⟨a1, by rw [balance_trace client r tr ha, h1], ?_⟩
      intro f ps hmem
      rcases m1 _ hmem with he | ⟨m, he⟩ | ⟨d, he⟩
      · cases he; exact ⟨rfl, rfl, declaredCall_balanceOf _⟩
      · cases he
      · cases he
  · intro dn ds argsName argsSymbol vn vs hCn hgn hun hCs hgs hus
    obtain ⟨n, h1⟩ := getString_ok_of_unpack client "name" tr _ _ _ dn argsName vn method_name
      pack_name hCn hgn hun
    obtain ⟨s, h2⟩ := getString_ok_of_unpack client "symbol" _ _ _ _ ds argsSymbol vs method_symbol
      pack_symbol hCs hgs hus
    rw [details_ok client r tr _ _ n s h1 h2]
  · intro out args vals hC hg hu
    obtain ⟨i, h1⟩ := getUint256_ok_of_unpack client "totalSupply" [] tr _ _ _ out args vals
      method_totalSupply pack_totalSupply hC hg hu
    rw [supply_ok client r tr _ _ h1]
  · intro out args vals ha hC hg hu
    obtain ⟨i, h1⟩ := getUint256_ok_of_unpack client "balanceOf" _ tr _ _ _ out args vals
      method_balanceOf (pack_balanceOf _) hC hg hu
    rw [balance_ok client r tr _ _ ha h1]

end TokenTracker
